import Mathlib

/-!
Verification development for the Recommendation Reconciliation Engine of
`app/services/claim_service.py` (function `analyze_optimal_claim_path`,
lines 209-469).

The Python function post-processes an untrusted "oracle" recommendation
(a loosely typed dict) against a user's authoritative policy records.
We shallowly embed the reconciliation core:

* Python values that may appear in the oracle payload are modelled by the
  dynamic type `PyVal` (None, bool, int, str, list, dict with string keys).
  Numeric float values are abstracted by exact rationals; IEEE rounding is
  immaterial to every property considered here.
* Python dicts are modelled as association lists in insertion order;
  assignment replaces in place (CPython keeps the original key position on
  overwrite), which preserves the iteration order the code relies on.
* Statements that can raise (`TypeError` for iterating a non-iterable or
  hashing an unhashable key, `AttributeError` for a missing method such as
  `.lower()` / `.get()` / `.replace()` / `.copy()`, `ValueError` from
  `float(...)`) are modelled in the `Except PyErr` monad.
* `list(set(xs))` has an unspecified iteration order in CPython (string
  hashing is seeded per process).  The engine is therefore parameterised by
  a function `setOrder` used to model `list(set(...))`; admissible orders
  are captured by the predicate `SetDedup`.
-/

namespace ClaimService

/-- Python exception classes that the reconciliation core can raise. -/
inductive PyErr where
  | typeError
  | attributeError
  | valueError
  | keyError
deriving DecidableEq, Repr

/-- Dynamic Python values appearing in the oracle payload.  Dict keys are
strings (every key used by the code is a string literal). -/
inductive PyVal where
  | none
  | bool (b : Bool)
  | int (n : Int)
  | str (s : String)
  | list (xs : List PyVal)
  | dict (kvs : List (String × PyVal))
deriving Repr

/-- A Python dict with string keys, in insertion order. -/
abbrev Dict := List (String × PyVal)

/-- First value bound to a key in an association list (keys are unique in
the dicts the code builds, so this is dict lookup). -/
def assocGet? (kvs : List (String × α)) (k : String) : Option α :=
  match kvs with
  | [] => Option.none
  | (k', v) :: rest => if k' = k then some v else assocGet? rest k

/-- Dict lookup with a default (`d.get(k, dflt)`). -/
def assocGetD (kvs : List (String × α)) (k : String) (dflt : α) : α :=
  (assocGet? kvs k).getD dflt

/-- Key-membership test (`k in d`). -/
def assocHas (kvs : List (String × α)) (k : String) : Bool :=
  (assocGet? kvs k).isSome

/-- Dict assignment `d[k] = v`: replaces in place if the key is present
(keeping its position, as CPython does), otherwise appends. -/
def assocSet (kvs : List (String × α)) (k : String) (v : α) : List (String × α) :=
  match kvs with
  | [] => [(k, v)]
  | (k', v') :: rest =>
      if k' = k then (k', v) :: rest else (k', v') :: assocSet rest k v

/-- `recommendations.get(k)`: `None` when the key is absent. -/
def pyGet (recs : Dict) (k : String) : PyVal :=
  assocGetD recs k PyVal.none

/-- Python truthiness of a value. -/
def pyTruthy : PyVal → Bool
  | .none => false
  | .bool b => b
  | .int n => n ≠ 0
  | .str s => s ≠ ""
  | .list xs => ¬xs.isEmpty
  | .dict kvs => ¬kvs.isEmpty

/-- Python iteration `for x in v`: lists yield elements, strings yield
one-character strings, dicts yield their keys; other values raise
`TypeError`. -/
def pyIter : PyVal → Except PyErr (List PyVal)
  | .list xs => .ok xs
  | .str s => .ok (s.data.map (fun c => .str (String.mk [c])))
  | .dict kvs => .ok (kvs.map (fun kv => .str kv.1))
  | _ => .error .typeError

/-- `v in d` for a dict `d` with string keys: lists/dicts are unhashable
(`TypeError`); non-string hashable values never equal a string key. -/
def pyInStrKeys (v : PyVal) (kvs : List (String × α)) : Except PyErr Bool :=
  match v with
  | .str s => .ok (assocHas kvs s)
  | .list _ => .error .typeError
  | .dict _ => .error .typeError
  | _ => .ok false

/-- ASCII lowering of a string (model of `str.lower()`). -/
def strLower (s : String) : String := String.mk (s.data.map Char.toLower)

/-- Substring test over character lists. -/
def isSubstr (pat : List Char) (hay : List Char) : Bool :=
  match hay with
  | [] => pat.isEmpty
  | _ :: t => pat.isPrefixOf hay || isSubstr pat t

/-- Python `pat in hay` for strings. -/
def strContains (hay pat : String) : Bool := isSubstr pat.data hay.data

mutual

/-- Model of Python `str(v)`.  For lists and dicts the exact rendering is
immaterial here (its only consumer is the float parser, and any rendering
opening with a bracket fails to parse), so elements are rendered without
the quoting `repr` would add. -/
def pyStr : PyVal → String
  | .none => "None"
  | .bool true => "True"
  | .bool false => "False"
  | .int n => toString n
  | .str s => s
  | .list xs => "[" ++ pyStrList xs ++ "]"
  | .dict kvs => "\x7b" ++ pyStrDict kvs ++ "\x7d"

/-- Comma-joined rendering of list elements. -/
def pyStrList : List PyVal → String
  | [] => ""
  | [x] => pyStr x
  | x :: rest => pyStr x ++ ", " ++ pyStrList rest

/-- Comma-joined rendering of dict items. -/
def pyStrDict : List (String × PyVal) → String
  | [] => ""
  | [(k, v)] => k ++ ": " ++ pyStr v
  | (k, v) :: rest => k ++ ": " ++ pyStr v ++ ", " ++ pyStrDict rest

end

/-- Whitespace stripped by Python `float(...)`. -/
def isPySpace (c : Char) : Bool :=
  c = ' ' || c = '\t' || c = '\n' || c = '\r' || c = '\x0b' || c = '\x0c'

/-- ASCII digit test. -/
def isDigitChar (c : Char) : Bool := '0' ≤ c && c ≤ '9'

/-- Numeric value of a digit list, most significant digit first. -/
def digitsToNat (ds : List Char) : Nat :=
  ds.foldl (fun a c => 10 * a + (c.toNat - 48)) 0

/-- Parse the unsigned mantissa `digits[.digits]` of a float literal,
returning the value and the unconsumed remainder. -/
def parseMantissa (cs : List Char) : Option (ℚ × List Char) :=
  let intPart := cs.takeWhile isDigitChar
  let rest := cs.dropWhile isDigitChar
  match rest with
  | '.' :: rest2 =>
      let fracPart := rest2.takeWhile isDigitChar
      let rest3 := rest2.dropWhile isDigitChar
      if intPart.isEmpty && fracPart.isEmpty then Option.none
      else some ((digitsToNat intPart : ℚ)
        + (digitsToNat fracPart : ℚ) / ((10 : ℚ) ^ fracPart.length), rest3)
  | _ =>
      if intPart.isEmpty then Option.none
      else some ((digitsToNat intPart : ℚ), rest)

/-- Parse an exponent suffix `[+|-]digits` that must consume everything. -/
def parseExpDigits (cs : List Char) : Option Int :=
  match cs with
  | '+' :: ds =>
      if ds.isEmpty || !ds.all isDigitChar then Option.none
      else some (digitsToNat ds : Int)
  | '-' :: ds =>
      if ds.isEmpty || !ds.all isDigitChar then Option.none
      else some (-(digitsToNat ds : Int))
  | ds =>
      if ds.isEmpty || !ds.all isDigitChar then Option.none
      else some (digitsToNat ds : Int)

/-- Parse an unsigned float literal (mantissa with optional exponent). -/
def parseUnsignedFloat (cs : List Char) : Option ℚ := do
  let (m, rest) ← parseMantissa cs
  match rest with
  | [] => some m
  | 'e' :: es => (parseExpDigits es).map (fun e => m * (10 : ℚ) ^ e)
  | 'E' :: es => (parseExpDigits es).map (fun e => m * (10 : ℚ) ^ e)
  | _ => Option.none

/-- Model of Python `float(s)` on the finite-literal grammar: optional
surrounding whitespace, optional sign, decimal mantissa, optional
exponent.  (`inf`/`nan` literals and digit-group underscores are outside
the model; the code under verification never produces them.)  The result
is the exact rational denoted by the literal; IEEE rounding of the Python
float is abstracted away. -/
def pyFloat? (s : String) : Option ℚ :=
  let cs := ((s.data.dropWhile isPySpace).reverse.dropWhile isPySpace).reverse
  match cs with
  | '+' :: rest => parseUnsignedFloat rest
  | '-' :: rest => (parseUnsignedFloat rest).map Neg.neg
  | rest => parseUnsignedFloat rest

/-- `s.replace("$", "").replace(",", "")`: drop every dollar sign and
comma. -/
def stripCurrencyChars (s : String) : String :=
  String.mk (s.data.filter (fun c => c ≠ '$' && c ≠ ','))

/-- Parse one coverage limit exactly as line 320 does:
`float(str(area.get("limit", "0")).replace("$", "").replace(",", ""))`. -/
def parseLimit (v : PyVal) : Option ℚ :=
  pyFloat? (stripCurrencyChars (pyStr v))

/-- Insert a comma after every third digit, counting from the right
(input and output most significant digit first, reversed internally). -/
def groupDigitsAux : List Char → List Char
  | a :: b :: c :: d :: rest => a :: b :: c :: ',' :: groupDigitsAux (d :: rest)
  | l => l

/-- Thousands grouping of a digit string. -/
def groupDigits (ds : List Char) : List Char := (groupDigitsAux ds.reverse).reverse

/-- Model of the f-string `f"${total:,.2f}"`: dollar sign, thousands
separators, two decimals.  Rounding to cents uses `round`; the claims
never inspect a value where the rounding mode could differ from CPython
float formatting. -/
def formatUSD (q : ℚ) : String :=
  let cents : Int := round (|q| * 100)
  let whole := (cents / 100).toNat
  let frac := (cents % 100).toNat
  "$" ++ (if q < 0 then "-" else "")
    ++ String.mk (groupDigits (toString whole).data)
    ++ "." ++ (if frac < 10 then "0" ++ toString frac else toString frac)

/-- One term of the coverage-limit sum: dicts with a `"limit"` key
contribute their parsed limit (raising `ValueError` when the parse
fails); everything else is filtered out by the generator condition. -/
def coverageStep (acc : ℚ) (kv : String × PyVal) : Except PyErr ℚ :=
  match kv.2 with
  | .dict d =>
      (match assocGet? d "limit" with
      | some lim =>
          (match parseLimit lim with
          | some q => .ok (acc + q)
          | Option.none => .error .valueError)
      | Option.none => .ok acc)
  | _ => .ok acc

/-- Lines 319-323 / 338-342 / 381-385: sum the parsed `limit` of every
coverage-area value that is a dict containing a `"limit"` key.  Non-dict
values and dicts without the key are filtered out by the generator
condition; a limit that fails to parse raises `ValueError`. -/
def coverageSum (areas : List (String × PyVal)) : Except PyErr ℚ :=
  areas.foldlM coverageStep 0

/-- An authoritative policy record as read from the store (only the keys
`analyze_optimal_claim_path` touches). `policy_id_field` is the record's
`"policy_id"` key, used at line 230 as fallback for `"policy_number"`;
`coverage_areas` values stay dynamic because line 322 inspects their
runtime type. -/
structure Policy where
  _id : String
  provider : String := ""
  policy_type : String := ""
  policy_number : String := ""
  policy_id_field : String := ""
  coverage_areas : List (String × PyVal) := []
  deductible : String := ""
  copayment : String := ""
  out_of_pocket_max : String := ""

/-- The per-policy snapshot stored in `policy_map` (lines 232-241). -/
structure PolicyInfo where
  id : String
  provider : String
  policy_type : String
  policy_number : String
  coverage_areas : List (String × PyVal)
  deductible : String
  copayment : String
  out_of_pocket_max : String

/-- Line 230: `policy.get("policy_number", "") or policy.get("policy_id", "")`. -/
def effectiveNumber (p : Policy) : String :=
  if p.policy_number ≠ "" then p.policy_number else p.policy_id_field

/-- The `policy_map` entry built for one policy. -/
def mkInfo (p : Policy) : PolicyInfo :=
  { id := p._id
    provider := p.provider
    policy_type := p.policy_type
    policy_number := effectiveNumber p
    coverage_areas := p.coverage_areas
    deductible := p.deductible
    copayment := p.copayment
    out_of_pocket_max := p.out_of_pocket_max }

/-- One iteration of the loop at lines 228-246 on the triple
`(policy_map, policy_number_map, policy_id_to_number)`. -/
def mapsStep (acc : List (String × PolicyInfo) × List (String × String) × List (String × String))
    (p : Policy) :
    List (String × PolicyInfo) × List (String × String) × List (String × String) :=
  let pm := assocSet acc.1 p._id (mkInfo p)
  let n := effectiveNumber p
  if n ≠ "" then
    (pm, assocSet acc.2.1 n p._id, assocSet acc.2.2 p._id n)
  else
    (pm, acc.2.1, acc.2.2)

/-- Lines 224-246: build `policy_map`, `policy_number_map` and
`policy_id_to_number`. -/
def buildPolicyMaps (policies : List Policy) :
    List (String × PolicyInfo) × List (String × String) × List (String × String) :=
  policies.foldl mapsStep ([], [], [])

/-- Lines 256-264: map a lowered policy type to its first matching
keyword, if any (the `if`/`elif` chain). -/
def typeKeyword (policy_type : String) : Option String :=
  let pt := strLower policy_type
  if strContains pt "health" then some "health"
  else if strContains pt "auto" then some "auto"
  else if strContains pt "home" then some "home"
  else Option.none

/-- One iteration of the loop at lines 257-264. -/
def typeMapStep (tm : List (String × String)) (kv : String × PolicyInfo) :
    List (String × String) :=
  match typeKeyword kv.2.policy_type with
  | some kw => assocSet tm kw kv.1
  | Option.none => tm

/-- Lines 255-264: build `policy_type_map` by iterating `policy_map` in
insertion order; assignment overwrites, so a later policy of the same
keyword replaces an earlier one. -/
def buildPolicyTypeMap (pm : List (String × PolicyInfo)) : List (String × String) :=
  pm.foldl typeMapStep []

/-- The four lookup maps in scope for the rest of the function. -/
structure Ctx where
  policy_map : List (String × PolicyInfo)
  policy_number_map : List (String × String)
  policy_id_to_number : List (String × String)
  policy_type_map : List (String × String)

/-- Build the full lookup context from the user's policies. -/
def buildCtx (policies : List Policy) : Ctx :=
  { policy_map := (buildPolicyMaps policies).1
    policy_number_map := (buildPolicyMaps policies).2.1
    policy_id_to_number := (buildPolicyMaps policies).2.2
    policy_type_map := buildPolicyTypeMap (buildPolicyMaps policies).1 }

/-- Case-insensitive literal prefix match; returns the remainder. -/
def ciPrefixDrop (pat : String) (cs : List Char) : Option (List Char) :=
  match pat.data, cs with
  | [], rest => some rest
  | _ :: _, [] => Option.none
  | p :: ps, c :: rest =>
      if p.toLower = c.toLower then ciPrefixDrop (String.mk ps) rest else Option.none

/-- Take exactly six ASCII digits; returns the digits and the remainder. -/
def takeSixDigits (cs : List Char) : Option (List Char × List Char) :=
  let ds := cs.take 6
  if ds.length = 6 && ds.all isDigitChar then some (ds, cs.drop 6) else Option.none

/-- Attempt the pattern `policy\s+(?:number\s+)?(\d{6})` (IGNORECASE) at
the head of `cs`; on success return the captured digits and the remainder
after the whole match.  Greedy `\s+` only needs its maximal extent: the
characters that can follow it (`n` of `number`, or a digit) are never
whitespace, so backtracking inside the run cannot help. -/
def matchPolicyNumAt (cs : List Char) : Option (List Char × List Char) := do
  let r ← ciPrefixDrop "policy" cs
  let ws := r.takeWhile isPySpace
  let r1 := r.dropWhile isPySpace
  if ws.isEmpty then Option.none
  else
    match (do
      let r2 ← ciPrefixDrop "number" r1
      let ws2 := r2.takeWhile isPySpace
      let r3 := r2.dropWhile isPySpace
      if ws2.isEmpty then Option.none else takeSixDigits r3) with
    | some res => some res
    | Option.none => takeSixDigits r1

/-- Left-to-right non-overlapping scan of `re.findall`; the fuel (the
remaining length) dominates the number of steps since every match
consumes at least one character. -/
def findPolicyNumsAux : Nat → List Char → List String
  | 0, _ => []
  | _, [] => []
  | fuel + 1, c :: rest =>
      match matchPolicyNumAt (c :: rest) with
      | some (cap, after) => String.mk cap :: findPolicyNumsAux fuel after
      | Option.none => findPolicyNumsAux fuel rest

/-- Line 271: `re.findall` of the six-digit policy-number pattern over the
explanation, IGNORECASE (the pattern itself is spelled out in
`matchPolicyNumAt`). -/
def findPolicyNums (s : String) : List String :=
  findPolicyNumsAux s.data.length s.data

/-- Lines 266-275: build the `policy_numbers` dict (number, id) from
6-digit matches in the explanation that occur in `policy_number_map`.
Raises `TypeError` when a truthy explanation is not a string (as
`re.findall` does). -/
def extractPolicyNumbers (ctx : Ctx) (expl : PyVal) :
    Except PyErr (List (String × String)) :=
  if pyTruthy expl then
    match expl with
    | .str s =>
        .ok ((findPolicyNums s).foldl (fun acc m =>
          match assocGet? ctx.policy_number_map m with
          | some pid => assocSet acc m pid
          | Option.none => acc) [])
    | _ => .error .typeError
  else .ok []

/-- The token-to-policy resolution applied to each entry of
`applicable_policies` (lines 284-297) and of `filing_order`
(lines 397-410): exact id, else policy number, else first type keyword
contained in the lowered token whose keyword has a mapped policy; `none`
when nothing matches. -/
def resolveToken (ctx : Ctx) (tok : String) : Option String :=
  if assocHas ctx.policy_map tok then some tok
  else
    match assocGet? ctx.policy_number_map tok with
    | some pid => some pid
    | Option.none =>
        let pt := strLower tok
        if strContains pt "health" && assocHas ctx.policy_type_map "health" then
          assocGet? ctx.policy_type_map "health"
        else if strContains pt "auto" && assocHas ctx.policy_type_map "auto" then
          assocGet? ctx.policy_type_map "auto"
        else if strContains pt "home" && assocHas ctx.policy_type_map "home" then
          assocGet? ctx.policy_type_map "home"
        else Option.none

/-- Resolution of a dynamic token: a non-string hashable token passes the
two dict-membership tiers (always false) and then raises
`AttributeError` at `.lower()`; an unhashable token raises `TypeError`
at the first membership test. -/
def resolveTokenDyn (ctx : Ctx) : PyVal → Except PyErr (Option String)
  | .str s => .ok (resolveToken ctx s)
  | .list _ => .error .typeError
  | .dict _ => .error .typeError
  | _ => .error .attributeError

/-- Resolve a list of dynamic tokens, keeping successes in order and
dropping unresolved tokens (the shared shape of the loops at lines
281-297 and 395-410). -/
def resolveAll (ctx : Ctx) (toks : List PyVal) : Except PyErr (List String) :=
  toks.foldlM (fun acc t => do
    let r ← resolveTokenDyn ctx t
    pure (match r with
      | some pid => acc ++ [pid]
      | Option.none => acc)) []

/-- Deduplication of `list(dict.fromkeys(xs))`: keep the first occurrence
of each element, in order. -/
def dedupKeepFirst : List String → List String
  | [] => []
  | x :: rest => x :: (dedupKeepFirst rest).filter (fun y => y ≠ x)

/-- Admissible models of `list(set(xs))`: some duplicate-free enumeration
of the elements of `xs`.  CPython's actual iteration order depends on the
per-process string-hash seed, so no single order is the code's. -/
def SetDedup (f : List String → List String) : Prop :=
  ∀ xs : List String, (f xs).Nodup ∧ ∀ a, a ∈ f xs ↔ a ∈ xs

/-- Lines 280-298: resolve and rewrite `applicable_policies`, finishing
with `list(set(actual_policies))` (modelled by `setOrder`). -/
def updateApplicable (setOrder : List String → List String) (ctx : Ctx)
    (recs : Dict) : Except PyErr Dict :=
  let v := pyGet recs "applicable_policies"
  if pyTruthy v then do
    let toks ← pyIter v
    let actual ← resolveAll ctx toks
    pure (assocSet recs "applicable_policies"
      (.list ((setOrder actual).map PyVal.str)))
  else pure recs

/-- Lines 300-302: when no applicable policies were found, fall back to
the ids extracted from the explanation (`list(policy_numbers.values())`). -/
def applyExplanationFallback (policy_numbers : List (String × String))
    (recs : Dict) : Dict :=
  if ¬pyTruthy (pyGet recs "applicable_policies") && ¬policy_numbers.isEmpty then
    assocSet recs "applicable_policies"
      (.list (policy_numbers.map (fun kv => PyVal.str kv.2)))
  else recs

/-- Lines 393-411: resolve and rewrite `filing_order`, deduplicating with
`list(dict.fromkeys(...))` (first occurrence kept, order preserved). -/
def updateFilingOrder (ctx : Ctx) (recs : Dict) : Except PyErr Dict :=
  let v := pyGet recs "filing_order"
  if pyTruthy v then do
    let toks ← pyIter v
    let actual ← resolveAll ctx toks
    pure (assocSet recs "filing_order"
      (.list ((dedupKeepFirst actual).map PyVal.str)))
  else pure recs

/-- Lines 413-415: default an empty filing order to a copy of the
applicable policies (`.copy()` raises `AttributeError` on values without
that method, e.g. strings and numbers). -/
def applyFilingFallback (recs : Dict) : Except PyErr Dict :=
  if ¬pyTruthy (pyGet recs "filing_order")
      && pyTruthy (pyGet recs "applicable_policies") then
    match pyGet recs "applicable_policies" with
    | .list xs => .ok (assocSet recs "filing_order" (.list xs))
    | .dict kvs => .ok (assocSet recs "filing_order" (.dict kvs))
    | _ => .error .attributeError
  else .ok recs

/-- Lines 417-419: guarantee a non-empty `limitations`. -/
def applyLimitationsDefault (recs : Dict) : Dict :=
  if ¬pyTruthy (pyGet recs "limitations") then
    assocSet recs "limitations"
      (.list [.str "See policy for specific limitations and exclusions."])
  else recs

/-- The field fills shared by the two appending-relevant repair branches
(lines 314-328 and 333-347): backfill `estimated_coverage` from the
summed coverage limits when the key is missing and areas exist, then
`deductible` and `copay` from the policy when missing and non-empty. -/
def fillDetail (info : PolicyInfo) (kvs0 : Dict) : Except PyErr Dict := do
  let kvs ← if !assocHas kvs0 "estimated_coverage" then
      (if !info.coverage_areas.isEmpty then do
          let total ← coverageSum info.coverage_areas
          pure (assocSet kvs0 "estimated_coverage" (.str (formatUSD total)))
        else pure kvs0)
    else pure kvs0
  let kvs := if !assocHas kvs "deductible" && info.deductible ≠ "" then
      assocSet kvs "deductible" (.str info.deductible) else kvs
  let kvs := if !assocHas kvs "copay" && info.copayment ≠ "" then
      assocSet kvs "copay" (.str info.copayment) else kvs
  pure kvs

/-- Lines 309-363: process one raw coverage detail.  Returns the repaired
detail to append, or `none` when the entry is dropped.  The exact-id
branch (lines 311-328) performs its fills but never appends, so its
result is discarded; only the raise it may produce while summing is
observable. -/
def repairDetail (ctx : Ctx) (v : PyVal) : Except PyErr (Option PyVal) :=
  match v with
  | .dict kvs =>
      (match assocGetD kvs "policy_id" (.str "") with
      | .str pid =>
          (match assocGet? ctx.policy_map pid with
          | some info => do
              let kvs := assocSet kvs "policy_id" (.str pid)
              let _ ← fillDetail info kvs
              pure Option.none
          | Option.none =>
            match assocGet? ctx.policy_number_map pid with
            | some actual_id =>
                (match assocGet? ctx.policy_map actual_id with
                | some info => do
                    let kvs := assocSet kvs "policy_id" (.str actual_id)
                    let kvs ← fillDetail info kvs
                    pure (some (.dict kvs))
                | Option.none => .error .keyError)
            | Option.none =>
                let pt := strLower pid
                if strContains pt "health" && assocHas ctx.policy_type_map "health" then
                  .ok (some (.dict (assocSet kvs "policy_id"
                    (.str (assocGetD ctx.policy_type_map "health" "")))))
                else if strContains pt "auto" && assocHas ctx.policy_type_map "auto" then
                  .ok (some (.dict (assocSet kvs "policy_id"
                    (.str (assocGetD ctx.policy_type_map "auto" "")))))
                else if strContains pt "home" && assocHas ctx.policy_type_map "home" then
                  .ok (some (.dict (assocSet kvs "policy_id"
                    (.str (assocGetD ctx.policy_type_map "home" "")))))
                else .ok Option.none)
      | .list _ => .error .typeError
      | .dict _ => .error .typeError
      | _ => .error .attributeError)
  | _ => .error .attributeError

/-- Lines 306-364: rebuild `coverage_details` from the raw entries. -/
def updateCoverageDetails (ctx : Ctx) (recs : Dict) : Except PyErr Dict :=
  let v := pyGet recs "coverage_details"
  if pyTruthy v then do
    let items ← pyIter v
    let actual ← items.foldlM (fun acc it => do
      let r ← repairDetail ctx it
      pure (match r with
        | some d => acc ++ [d]
        | Option.none => acc)) ([] : List PyVal)
    pure (assocSet recs "coverage_details" (.list actual))
  else pure recs

/-- Lines 371-387: the defaulted coverage detail synthesized for one
applicable policy. -/
def synthDetail (pid : String) (info : PolicyInfo) : Except PyErr Dict := do
  let d0 : Dict :=
    [("policy_id", .str pid),
     ("estimated_coverage", .str "See policy for details"),
     ("deductible", .str (if info.deductible ≠ "" then
        info.deductible else "See policy for details")),
     ("copay", .str (if info.copayment ≠ "" then
        info.copayment else "See policy for details"))]
  if !info.coverage_areas.isEmpty then do
    let total ← coverageSum info.coverage_areas
    pure (if 0 < total then
      assocSet d0 "estimated_coverage" (.str (formatUSD total)) else d0)
  else pure d0

/-- Lines 389-390: initialize `coverage_details` to `[]` when falsy. -/
def covAppendInit (recs : Dict) : Dict :=
  if ¬pyTruthy (pyGet recs "coverage_details") then
    assocSet recs "coverage_details" (.list []) else recs

/-- Lines 388-391: initialize `coverage_details` to `[]` when falsy,
then `.append(...)` the synthesized detail (appending to a non-list
would raise `AttributeError`). -/
def covAppend (recs : Dict) (d : Dict) : Except PyErr Dict :=
  match pyGet (covAppendInit recs) "coverage_details" with
  | .list ds => pure (assocSet (covAppendInit recs) "coverage_details"
      (.list (ds ++ [.dict d])))
  | _ => .error .attributeError

/-- Lines 368-391: one iteration of the synthesis loop, appending a fully
defaulted coverage detail for an applicable id found in `policy_map`. -/
def synthesizeStep (ctx : Ctx) (recs : Dict) (it : PyVal) : Except PyErr Dict :=
  match it with
  | .list _ => .error .typeError
  | .dict _ => .error .typeError
  | .str pid =>
      (match assocGet? ctx.policy_map pid with
      | some info => do
          let d ← synthDetail pid info
          covAppend recs d
      | Option.none => pure recs)
  | _ => pure recs

/-- Lines 366-391: when the coverage details are empty but applicable
policies exist, synthesize one defaulted detail per applicable id found
in `policy_map`. -/
def synthesizeDetails (ctx : Ctx) (recs : Dict) : Except PyErr Dict :=
  if ¬pyTruthy (pyGet recs "coverage_details")
      && pyTruthy (pyGet recs "applicable_policies") then do
    let items ← pyIter (pyGet recs "applicable_policies")
    items.foldlM (synthesizeStep ctx) recs
  else pure recs

/-- Replace every occurrence of `pat` in a character list, left to right,
non-overlapping; fuel bounds the recursion (each step consumes at least
one character when the pattern is non-empty). -/
def pyReplaceAux : Nat → List Char → List Char → List Char → List Char
  | 0, _, _, cs => cs
  | _, _, _, [] => []
  | fuel + 1, pat, rep, c :: rest =>
      if pat.isPrefixOf (c :: rest) then
        rep ++ pyReplaceAux fuel pat rep ((c :: rest).drop pat.length)
      else c :: pyReplaceAux fuel pat rep rest

/-- Model of Python `s.replace(pat, rep)`.  The empty-pattern case (where
Python interleaves `rep` everywhere) is returned unchanged: every pattern
built by the rewrite loop has a non-empty literal core. -/
def pyReplace (s pat rep : String) : String :=
  if pat.isEmpty then s
  else String.mk (pyReplaceAux s.data.length pat.data rep.data s.data)

/-- Lines 426-432: the two literal substitutions applied for one resolved
applicable policy. -/
def rewriteForPolicy (info : PolicyInfo) (pid : String) (e : String) : String :=
  let e1 := pyReplace e (info.policy_type ++ " insurance policy")
    (info.policy_type ++ " insurance policy " ++ info.policy_number)
  pyReplace e1 ("policy " ++ pid) ("policy " ++ info.policy_number)

/-- The spec's standalone `Rewrite(explanation, resolvedPolicies)`
(section 4.5): fold the two substitutions over the resolved (id, record)
pairs in order, exactly as the loop at lines 424-432 does for the
resolved applicable policies. -/
def rewriteExplanation (resolved : List (String × PolicyInfo)) (s : String) : String :=
  resolved.foldl (fun e kv => rewriteForPolicy kv.2 kv.1 e) s

/-- Lines 421-434: rewrite the explanation in place for every applicable
id found in `policy_map`. -/
def updateExplanation (ctx : Ctx) (recs : Dict) : Except PyErr Dict :=
  if pyTruthy (pyGet recs "explanation")
      && pyTruthy (pyGet recs "applicable_policies") then do
    let items ← pyIter (pyGet recs "applicable_policies")
    let e ← items.foldlM (fun (e : PyVal) it =>
        match it with
        | .list _ => .error PyErr.typeError
        | .dict _ => .error PyErr.typeError
        | .str pid =>
            (match assocGet? ctx.policy_map pid with
            | some info =>
                (match e with
                | .str s => .ok (.str (rewriteForPolicy info pid s))
                | _ => .error PyErr.attributeError)
            | Option.none => .ok e)
        | _ => .ok e) (pyGet recs "explanation")
    pure (assocSet recs "explanation" e)
  else pure recs

/-- Lines 436-440: publish the `policy_numbers` display map for the
applicable ids (note the `.get(..., [])` default applies only when the
key is absent). -/
def updatePolicyNumbersKey (ctx : Ctx) (recs : Dict) : Except PyErr Dict := do
  let recs := assocSet recs "policy_numbers" (.dict [])
  let v := assocGetD recs "applicable_policies" (.list [])
  let items ← pyIter v
  let pn ← items.foldlM (fun (acc : Dict) it =>
      match it with
      | .list _ => .error PyErr.typeError
      | .dict _ => .error PyErr.typeError
      | .str pid =>
          (match assocGet? ctx.policy_id_to_number pid with
          | some n => .ok (assocSet acc pid (.str n))
          | Option.none => .ok acc)
      | _ => .ok acc) ([] : Dict)
  pure (assocSet recs "policy_numbers" (.dict pn))

/-- Line 445 / 455 / 459: the user-facing rendering of a policy id. -/
def displayStr (ctx : Ctx) (pid : String) (info : PolicyInfo) : String :=
  "Policy " ++ assocGetD ctx.policy_id_to_number pid pid ++ " ("
    ++ String.intercalate ", " (info.coverage_areas.map Prod.fst) ++ ")..."

/-- Lines 443-448 and 457-462: replace an id list by display strings,
dropping ids not in `policy_map`. -/
def formatIdStep (ctx : Ctx) (acc : List PyVal) (it : PyVal) :
    Except PyErr (List PyVal) :=
  match it with
  | .list _ => .error PyErr.typeError
  | .dict _ => .error PyErr.typeError
  | .str pid =>
      (match assocGet? ctx.policy_map pid with
      | some info => .ok (acc ++ [.str (displayStr ctx pid info)])
      | Option.none => .ok acc)
  | _ => .ok acc

def formatIdList (ctx : Ctx) (key : String) (recs : Dict) : Except PyErr Dict :=
  let v := pyGet recs key
  if pyTruthy v then do
    let items ← pyIter v
    let new ← items.foldlM (formatIdStep ctx) ([] : List PyVal)
    pure (assocSet recs key (.list new))
  else pure recs

/-- Lines 450-455: rewrite each coverage detail's `policy_id` to the
display string when it is a known id (entries are kept either way). -/
def formatCovStep (ctx : Ctx) (acc : List PyVal) (it : PyVal) :
    Except PyErr (List PyVal) :=
  match it with
  | .dict kvs =>
      (match assocGetD kvs "policy_id" (.str "") with
      | .str pid =>
          (match assocGet? ctx.policy_map pid with
          | some info => .ok (acc ++ [.dict (assocSet kvs "policy_id"
              (.str (displayStr ctx pid info)))])
          | Option.none => .ok (acc ++ [.dict kvs]))
      | .list _ => .error PyErr.typeError
      | .dict _ => .error PyErr.typeError
      | _ => .ok (acc ++ [.dict kvs]))
  | _ => .error PyErr.attributeError

def formatCoverageDetails (ctx : Ctx) (recs : Dict) : Except PyErr Dict :=
  let v := pyGet recs "coverage_details"
  if pyTruthy v then do
    let items ← pyIter v
    let new ← items.foldlM (formatCovStep ctx) ([] : List PyVal)
    pure (assocSet recs "coverage_details" (.list new))
  else pure recs

/-- Lines 224-464: the reconciliation core of `analyze_optimal_claim_path`,
from index building to the fully formatted recommendation dict.  The
`setOrder` parameter models the unspecified iteration order of
`list(set(...))` at line 298. -/
def analyzeCore (setOrder : List String → List String) (policies : List Policy)
    (recs : Dict) : Except PyErr Dict := do
  let ctx := buildCtx policies
  let policy_numbers ← extractPolicyNumbers ctx (pyGet recs "explanation")
  let recs ← updateApplicable setOrder ctx recs
  let recs := applyExplanationFallback policy_numbers recs
  let recs ← updateCoverageDetails ctx recs
  let recs ← synthesizeDetails ctx recs
  let recs ← updateFilingOrder ctx recs
  let recs ← applyFilingFallback recs
  let recs := applyLimitationsDefault recs
  let recs ← updateExplanation ctx recs
  let recs ← updatePolicyNumbersKey ctx recs
  let recs ← formatIdList ctx "applicable_policies" recs
  let recs ← formatCoverageDetails ctx recs
  let recs ← formatIdList ctx "filing_order" recs
  pure recs

/-- Outcome of `analyze_optimal_claim_path`: the early "no policies"
return (lines 215-219) or the reconciled recommendations (lines 466-469). -/
inductive AnalyzeResult where
  | failure (message : String)
  | success (recommendations : Dict)

/-- Lines 209-469 of `app/services/claim_service.py`, with the policy
list and the oracle payload passed explicitly in place of the awaited
collaborator calls. -/
def analyze_optimal_claim_path (setOrder : List String → List String)
    (policies : List Policy) (recs : Dict) : Except PyErr AnalyzeResult :=
  if policies.isEmpty then
    .ok (.failure "No policies found. Please upload your insurance policies first.")
  else (analyzeCore setOrder policies recs).map .success

theorem assocGet?_assocSet_self (kvs : List (String × α)) (k : String) (v : α) :
    assocGet? (assocSet kvs k v) k = some v := by
  induction kvs with
  | nil => simp [assocSet, assocGet?]
  | cons kv rest ih =>
      obtain ⟨k', v'⟩ := kv
      by_cases h : k' = k <;> simp [assocSet, assocGet?, h, ih]

theorem assocGet?_assocSet_ne (kvs : List (String × α)) (k k' : String) (v : α)
    (h : k' ≠ k) : assocGet? (assocSet kvs k v) k' = assocGet? kvs k' := by
  induction kvs with
  | nil =>
      simp only [assocSet, assocGet?]
      exact if_neg (fun hh => h hh.symm)
  | cons kv rest ih =>
      obtain ⟨k0, v0⟩ := kv
      by_cases h0 : k0 = k <;> by_cases h1 : k0 = k' <;>
        simp_all [assocSet, assocGet?]

theorem assocSet_assocSet_self (kvs : List (String × α)) (k : String) (v w : α) :
    assocSet (assocSet kvs k v) k w = assocSet kvs k w := by
  induction kvs with
  | nil => simp [assocSet]
  | cons kv rest ih =>
      obtain ⟨k0, v0⟩ := kv
      by_cases h : k0 = k <;> simp [assocSet, h, ih]

theorem pyGet_assocSet_self (recs : Dict) (k : String) (v : PyVal) :
    pyGet (assocSet recs k v) k = v := by
  simp [pyGet, assocGetD, assocGet?_assocSet_self]

theorem pyGet_assocSet_ne (recs : Dict) (k k' : String) (v : PyVal)
    (h : k' ≠ k) : pyGet (assocSet recs k v) k' = pyGet recs k' := by
  simp [pyGet, assocGetD, assocGet?_assocSet_ne _ _ _ _ h]

/-- Generic invariant-threading success lemma for `foldlM` in `Except`. -/
theorem foldlM_ok_inv {α β : Type} (step : β → α → Except PyErr β) (Q : β → Prop)
    (l : List α) (hstep : ∀ a ∈ l, ∀ b, Q b → ∃ b2, step b a = .ok b2 ∧ Q b2) :
    ∀ b, Q b → ∃ b2, l.foldlM step b = .ok b2 ∧ Q b2 := by
  induction l with
  | nil => exact fun b hb => ⟨b, rfl, hb⟩
  | cons a rest ih =>
      intro b hb
      obtain ⟨b1, h1, hq1⟩ := hstep a (by simp) b hb
      obtain ⟨b2, h2, hq2⟩ := ih (fun x hx => hstep x (by simp [hx])) b1 hq1
      exact ⟨b2, by rw [List.foldlM_cons, h1]; exact h2, hq2⟩

theorem mem_dedupKeepFirst (xs : List String) (a : String) :
    a ∈ dedupKeepFirst xs ↔ a ∈ xs := by
  induction xs with
  | nil => simp [dedupKeepFirst]
  | cons x rest ih =>
      simp only [dedupKeepFirst, List.mem_cons, List.mem_filter]
      constructor
      · rintro (h | ⟨h, _⟩)
        · exact Or.inl h
        · exact Or.inr (ih.mp h)
      · rintro (h | h)
        · exact Or.inl h
        · by_cases hx : a = x
          · exact Or.inl hx
          · exact Or.inr ⟨ih.mpr h, by simpa using hx⟩

theorem nodup_dedupKeepFirst (xs : List String) : (dedupKeepFirst xs).Nodup := by
  induction xs with
  | nil => simp [dedupKeepFirst]
  | cons x rest ih =>
      refine List.Nodup.cons ?_ (List.Nodup.filter _ ih)
      intro hmem
      rcases List.mem_filter.mp hmem with ⟨_, hne⟩
      simp at hne

theorem dedupKeepFirst_sublist (xs : List String) :
    List.Sublist (dedupKeepFirst xs) xs := by
  induction xs with
  | nil => simp [dedupKeepFirst]
  | cons x rest ih =>
      exact List.Sublist.cons₂ x ((List.filter_sublist _).trans ih)

theorem setDedup_dedupKeepFirst : SetDedup dedupKeepFirst :=
  fun xs => ⟨nodup_dedupKeepFirst xs, fun a => mem_dedupKeepFirst xs a⟩

/-- An admissible model of `list(set(...))` that reverses the
first-occurrence order; used to exhibit order-dependence. -/
def revDedup (xs : List String) : List String := (dedupKeepFirst xs).reverse

theorem setDedup_revDedup : SetDedup revDedup := by
  intro xs
  refine ⟨List.nodup_reverse.mpr (nodup_dedupKeepFirst xs), fun a => ?_⟩
  simp [revDedup, mem_dedupKeepFirst]

/-- Extract a list of strings from the value stored under `k`, when it is
one (projection used to state properties of engine outputs). -/
def strListOf (d : Dict) (k : String) : Option (List String) :=
  match pyGet d k with
  | .list xs => xs.mapM (fun v =>
      match v with
      | .str s => some s
      | _ => Option.none)
  | _ => Option.none

/-- The coverage-limit sum as section 4.4 of the spec words it: the same
filtered sum, but an entry whose limit fails to parse is skipped instead
of raising (refinement comparison target for `coverageSum`). -/
def coverageSpecStep (acc : ℚ) (kv : String × PyVal) : ℚ :=
  match kv.2 with
  | .dict d =>
      (match assocGet? d "limit" with
      | some lim =>
          (match parseLimit lim with
          | some q => acc + q
          | Option.none => acc)
      | Option.none => acc)
  | _ => acc

/-- Spec-worded total coverage sum (parse failures skipped). -/
def coverageSumSpec (areas : List (String × PyVal)) : ℚ :=
  areas.foldl coverageSpecStep 0

/-- Decidable check that one coverage-area entry either is filtered out
by the generator condition or has a parseable limit. -/
def entryParses (kv : String × PyVal) : Bool :=
  match kv.2 with
  | .dict d =>
      (match assocGet? d "limit" with
      | some lim => (parseLimit lim).isSome
      | Option.none => true)
  | _ => true

/-- Decidable check that every coverage-area entry the generator keeps
(a dict with a `"limit"` key) has a parseable limit. -/
def allLimitsParse (areas : List (String × PyVal)) : Bool :=
  areas.all entryParses

theorem coverageStep_of_parses (acc : ℚ) (kv : String × PyVal)
    (h : entryParses kv = true) :
    coverageStep acc kv = .ok (coverageSpecStep acc kv) := by
  obtain ⟨k, v⟩ := kv
  match v with
  | .dict d =>
      cases hl : assocGet? d "limit" with
      | none => simp [coverageStep, coverageSpecStep, hl]
      | some lim =>
          cases hp : parseLimit lim with
          | none => simp [entryParses, hl, hp] at h
          | some q => simp [coverageStep, coverageSpecStep, hl, hp]
  | .none => simp [coverageStep, coverageSpecStep]
  | .bool _ => simp [coverageStep, coverageSpecStep]
  | .int _ => simp [coverageStep, coverageSpecStep]
  | .str _ => simp [coverageStep, coverageSpecStep]
  | .list _ => simp [coverageStep, coverageSpecStep]

theorem coverageStep_of_fails (acc : ℚ) (kv : String × PyVal)
    (h : entryParses kv = false) :
    coverageStep acc kv = .error .valueError := by
  obtain ⟨k, v⟩ := kv
  match v with
  | .dict d =>
      cases hl : assocGet? d "limit" with
      | none => simp [entryParses, hl] at h
      | some lim =>
          cases hp : parseLimit lim with
          | none => simp [coverageStep, hl, hp]
          | some q => simp [entryParses, hl, hp] at h
  | .none => simp [entryParses] at h
  | .bool _ => simp [entryParses] at h
  | .int _ => simp [entryParses] at h
  | .str _ => simp [entryParses] at h
  | .list _ => simp [entryParses] at h

theorem coverageSum_go (areas : List (String × PyVal)) : ∀ acc : ℚ,
    (allLimitsParse areas = true →
      areas.foldlM coverageStep acc = .ok (areas.foldl coverageSpecStep acc))
    ∧ (allLimitsParse areas = false →
      areas.foldlM coverageStep acc = .error .valueError) := by
  induction areas with
  | nil =>
      intro acc
      refine ⟨fun _ => rfl, fun h => ?_⟩
      simp [allLimitsParse] at h
  | cons kv rest ih =>
      intro acc
      constructor
      · intro h
        rw [allLimitsParse, List.all_cons, Bool.and_eq_true] at h
        rw [List.foldlM_cons, List.foldl_cons, coverageStep_of_parses acc kv h.1]
        exact (ih _).1 h.2
      · intro h
        rw [allLimitsParse, List.all_cons, Bool.and_eq_false_iff] at h
        cases hkv : entryParses kv with
        | false =>
            rw [List.foldlM_cons, coverageStep_of_fails acc kv hkv]
            rfl
        | true =>
            have hrest : allLimitsParse rest = false := by
              rcases h with h | h
              · rw [hkv] at h; cases h
              · exact h
            rw [List.foldlM_cons, coverageStep_of_parses acc kv hkv]
            exact (ih _).2 hrest

/-- A resolved health policy used in concrete scenarios. -/
def exInfoHealth : PolicyInfo :=
  { id := "pid1"
    provider := ""
    policy_type := "health"
    policy_number := "123456"
    coverage_areas := []
    deductible := ""
    copayment := ""
    out_of_pocket_max := "" }

/-- C4.  The spec claims `Rewrite(Rewrite(s, P), P) == Rewrite(s, P)`.
It is false: the replacement `"health insurance policy 123456"` still
contains the pattern `"health insurance policy"`, so a second pass
appends the policy number again. -/
theorem c4_counterexample :
    rewriteExplanation [("pid1", exInfoHealth)]
        (rewriteExplanation [("pid1", exInfoHealth)]
          "Your health insurance policy covers it.")
      ≠ rewriteExplanation [("pid1", exInfoHealth)]
          "Your health insurance policy covers it." := by
  decide

/-- C4 (amended).  Explanation rewriting is not idempotent: each pass of
the type rule appends the policy number again after every occurrence of
the pattern, e.g. one pass of the example yields
`... policy 123456 ...` and a second pass yields `... policy 123456 123456 ...`. -/
theorem c4_amended :
    rewriteExplanation [("pid1", exInfoHealth)]
        "Your health insurance policy covers it."
      = "Your health insurance policy 123456 covers it."
    ∧ rewriteExplanation [("pid1", exInfoHealth)]
        "Your health insurance policy 123456 covers it."
      = "Your health insurance policy 123456 123456 covers it." := by
  exact ⟨by decide, by decide⟩

/-- Coverage areas with an unparseable limit followed by a parseable one. -/
def exAreasBad : List (String × PyVal) :=
  [("ambulance", .dict [("limit", .str "N/A")]),
   ("dental", .dict [("limit", .int 500)])]

/-- Coverage areas where every kept entry parses; includes a non-dict
value and a dict without a `"limit"` key, which the generator skips. -/
def exAreasGood : List (String × PyVal) :=
  [("hospital", .dict [("limit", .str "$1,000")]),
   ("dental", .dict [("limit", .int 500)]),
   ("note", .str "not a mapping"),
   ("vision", .dict [("description", .str "no limit key")])]

/-- C7.  The spec claims a coverage-area entry whose limit fails to parse
is skipped without aborting the sum or raising.  In the code the bare
`float(...)` raises `ValueError` instead; the skip-on-failure reading
(`coverageSumSpec`) would have produced 500. -/
theorem c7_counterexample :
    coverageSum exAreasBad = .error .valueError
    ∧ coverageSumSpec exAreasBad = 500 := by
  refine ⟨rfl, ?_⟩
  have h1 : coverageSumSpec exAreasBad = 0 + ((500 : ℕ) : ℚ) := rfl
  rw [h1]
  norm_num

/-- C7 (amended).  Non-dict coverage-area values and dicts without a
`"limit"` key are skipped by the generator condition, and each kept limit
is parsed from a numeric value or a string stripped of dollar signs and
commas; but an entry whose limit fails to parse raises `ValueError`,
aborting the whole sum, rather than being skipped: the sum returns the
skip-free total exactly when every kept limit parses, and raises
otherwise. -/
theorem c7_amended (areas : List (String × PyVal)) :
    (allLimitsParse areas = true → coverageSum areas = .ok (coverageSumSpec areas))
    ∧ (allLimitsParse areas = false → coverageSum areas = .error .valueError) :=
  coverageSum_go areas 0

/-- C7 witness: the good fixture parses, so the sum succeeds and equals
the spec-worded filtered sum (1500). -/
theorem c7_amended_witness :
    coverageSum exAreasGood = .ok (coverageSumSpec exAreasGood) :=
  (c7_amended exAreasGood).1 rfl

/-- Two policies sharing a policy number and a type keyword (both types
contain `"health"`). -/
def exPolicyDupA : Policy :=
  { _id := "pa"
    policy_type := "Health Plan A"
    policy_number := "123456" }

/-- Second policy with the same policy number and type keyword. -/
def exPolicyDupB : Policy :=
  { _id := "pb"
    policy_type := "Family Health Plan B"
    policy_number := "123456" }

/-- C8.  The spec claims first-wins, no-overwrite behaviour for both
`byPolicyNumber` and `byType`.  The code assigns unconditionally, so the
duplicate number and the shared type keyword both map to the second
policy (`"pb"`), not the first (`"pa"`). -/
theorem c8_counterexample :
    assocGet? (buildCtx [exPolicyDupA, exPolicyDupB]).policy_number_map "123456"
        = some "pb"
    ∧ assocGet? (buildCtx [exPolicyDupA, exPolicyDupB]).policy_type_map "health"
        = some "pb"
    ∧ ("pb" : String) ≠ "pa" := by
  exact ⟨rfl, rfl, by decide⟩

/-- The id of the last policy in the list whose (non-empty) effective
policy number equals `n` — the value a last-wins index stores. -/
def lastNumberId : List Policy → String → Option String
  | [], _ => Option.none
  | p :: rest, n =>
      match lastNumberId rest n with
      | some x => some x
      | Option.none => if effectiveNumber p = n then some p._id else Option.none

/-- The id of the last `policy_map` entry whose first matching type
keyword is `kw` — the value a last-wins type index stores. -/
def lastTypeId : List (String × PolicyInfo) → String → Option String
  | [], _ => Option.none
  | kv :: rest, kw =>
      match lastTypeId rest kw with
      | some x => some x
      | Option.none =>
          if typeKeyword kv.2.policy_type = some kw then some kv.1 else Option.none

theorem buildNumber_go (ps : List Policy) :
    ∀ (acc : List (String × PolicyInfo) × List (String × String) × List (String × String))
      (n : String), n ≠ "" →
      assocGet? (ps.foldl mapsStep acc).2.1 n =
        (match lastNumberId ps n with
         | some x => some x
         | Option.none => assocGet? acc.2.1 n) := by
  induction ps with
  | nil => intro acc n _; rfl
  | cons p rest ih =>
      intro acc n hn
      rw [List.foldl_cons, ih (mapsStep acc p) n hn]
      cases hrest : lastNumberId rest n with
      | some x => simp [lastNumberId, hrest]
      | none =>
          simp only [lastNumberId, hrest]
          by_cases he : effectiveNumber p = n
          · have hne : effectiveNumber p ≠ "" := he ▸ hn
            have hm : (mapsStep acc p).2.1
                = assocSet acc.2.1 (effectiveNumber p) p._id := by
              simp [mapsStep, hne]
            rw [hm, he, assocGet?_assocSet_self]
            simp [he]
          · by_cases hz : effectiveNumber p = ""
            · have hm : (mapsStep acc p).2.1 = acc.2.1 := by
                simp [mapsStep, hz]
              rw [hm]
              simp [he]
            · have hm : (mapsStep acc p).2.1
                  = assocSet acc.2.1 (effectiveNumber p) p._id := by
                simp [mapsStep, hz]
              rw [hm, assocGet?_assocSet_ne _ _ _ _ (fun hh => he hh.symm)]
              simp [he]

theorem buildType_go (pm : List (String × PolicyInfo)) :
    ∀ (acc : List (String × String)) (kw : String),
      assocGet? (pm.foldl typeMapStep acc) kw =
        (match lastTypeId pm kw with
         | some x => some x
         | Option.none => assocGet? acc kw) := by
  induction pm with
  | nil => intro acc kw; rfl
  | cons kv rest ih =>
      intro acc kw
      rw [List.foldl_cons, ih (typeMapStep acc kv) kw]
      cases hrest : lastTypeId rest kw with
      | some x => simp [lastTypeId, hrest]
      | none =>
          simp only [lastTypeId, hrest]
          cases hk : typeKeyword kv.2.policy_type with
          | none =>
              have hm : typeMapStep acc kv = acc := by simp [typeMapStep, hk]
              rw [hm]
              simp [hk]
          | some kw0 =>
              have hm : typeMapStep acc kv = assocSet acc kw0 kv.1 := by
                simp [typeMapStep, hk]
              rw [hm]
              by_cases he : kw0 = kw
              · subst he
                rw [assocGet?_assocSet_self]
                simp [hk]
              · rw [assocGet?_assocSet_ne _ _ _ _ (fun hh => he hh.symm)]
                simp [hk, he]

/-- C8 (amended).  Index building is last-wins, not first-wins: for a
non-empty policy number, `byPolicyNumber` maps it to the last policy in
input order carrying that number, and `byType` maps each keyword to the
last `policy_map` entry whose type matches it. -/
theorem c8_amended (ps : List Policy) (n kw : String) (hn : n ≠ "") :
    assocGet? (buildCtx ps).policy_number_map n = lastNumberId ps n
    ∧ assocGet? (buildCtx ps).policy_type_map kw
        = lastTypeId (buildCtx ps).policy_map kw := by
  constructor
  · have h := buildNumber_go ps ([], [], []) n hn
    rw [show (buildCtx ps).policy_number_map = (ps.foldl mapsStep ([], [], [])).2.1 from rfl, h]
    cases lastNumberId ps n <;> rfl
  · have h := buildType_go (buildCtx ps).policy_map [] kw
    rw [show (buildCtx ps).policy_type_map
      = ((buildCtx ps).policy_map.foldl typeMapStep []) from rfl, h]
    cases lastTypeId (buildCtx ps).policy_map kw <;> rfl

/-- C8 witness: applying the last-wins characterization to the duplicate
fixture pair resolves the shared number to the second policy. -/
theorem c8_amended_witness :
    assocGet? (buildCtx [exPolicyDupA, exPolicyDupB]).policy_number_map "123456"
      = lastNumberId [exPolicyDupA, exPolicyDupB] "123456" :=
  (c8_amended [exPolicyDupA, exPolicyDupB] "123456" "health" (by decide)).1

/-- Spec tier 1 (section 4.2): exact-id match in `byId`. -/
def tier1 (ctx : Ctx) (tok : String) : Option String :=
  if assocHas ctx.policy_map tok then some tok else Option.none

/-- Spec tier 2: policy-number match in `byPolicyNumber`. -/
def tier2 (ctx : Ctx) (tok : String) : Option String :=
  assocGet? ctx.policy_number_map tok

/-- Spec tier 3 keyword loop: for each keyword in order, if the lowered
token contains it as a substring, return the `byType` record if present. -/
def tierTypeLoop (ctx : Ctx) (pt : String) : List String → Option String
  | [] => Option.none
  | kw :: rest =>
      if strContains pt kw && assocHas ctx.policy_type_map kw then
        assocGet? ctx.policy_type_map kw
      else tierTypeLoop ctx pt rest

/-- Spec tier 3: case-insensitive type-keyword substring match over the
keyword set (health, auto, home). -/
def tier3 (ctx : Ctx) (tok : String) : Option String :=
  tierTypeLoop ctx (strLower tok) ["health", "auto", "home"]

/-- A bare 6-digit numeral. -/
def isSixDigitNumeral (s : String) : Bool :=
  s.data.length = 6 && s.data.all isDigitChar

/-- Spec tier 4: when the token is itself a bare 6-digit numeral, retry
the policy-number tier with that numeral. -/
def tier4 (ctx : Ctx) (tok : String) : Option String :=
  if isSixDigitNumeral tok then tier2 ctx tok else Option.none

/-- The spec's `Resolve` (section 4.2), written as the tiered,
short-circuiting strategy: each tier is attempted only if the previous
returned nothing, and the overall result is `none` (Unresolved) when no
tier succeeds. -/
def resolveTokenSpec (ctx : Ctx) (tok : String) : Option String :=
  match tier1 ctx tok with
  | some r => some r
  | Option.none =>
      match tier2 ctx tok with
      | some r => some r
      | Option.none =>
          match tier3 ctx tok with
          | some r => some r
          | Option.none => tier4 ctx tok

/-- C9.  Token resolution is the tiered, short-circuiting strategy of the
spec — exact id, then policy number, then type keyword, then the 6-digit
retry of the number tier (which can never add anything, since tier 2
already failed on the same key) — and on a string token it always returns
a value (`Unresolved` is the `none` outcome), never an exception. -/
theorem c9_confirmed (ctx : Ctx) (tok : String) :
    resolveToken ctx tok = resolveTokenSpec ctx tok
    ∧ resolveTokenDyn ctx (.str tok) = .ok (resolveTokenSpec ctx tok) := by
  have h : resolveToken ctx tok = resolveTokenSpec ctx tok := by
    by_cases h1 : assocHas ctx.policy_map tok
    · simp [resolveToken, resolveTokenSpec, tier1, h1]
    · cases h2 : assocGet? ctx.policy_number_map tok with
      | some pid =>
          simp [resolveToken, resolveTokenSpec, tier1, tier2, h1, h2]
      | none =>
          have h4 : tier4 ctx tok = Option.none := by
            rw [tier4, tier2, h2]
            exact ite_self _
          have hspec : resolveTokenSpec ctx tok = tier3 ctx tok := by
            rw [resolveTokenSpec]
            rw [show tier1 ctx tok = Option.none from by simp [tier1, h1]]
            rw [show tier2 ctx tok = Option.none from by rw [tier2]; exact h2]
            cases h3 : tier3 ctx tok with
            | some r => rfl
            | none => simpa [h3] using h4
          rw [hspec]
          simp [resolveToken, tier3, tierTypeLoop, h1, h2]
  exact ⟨h, by
    rw [show resolveTokenDyn ctx (.str tok) = .ok (resolveToken ctx tok) from rfl, h]⟩

theorem exceptBind_ok {α β : Type} {e : Except PyErr α} {f : α → Except PyErr β}
    {d : β} (h : (e >>= f) = .ok d) : ∃ x, e = .ok x ∧ f x = .ok d := by
  cases e with
  | error err => simp [Bind.bind, Except.bind] at h
  | ok x => exact ⟨x, rfl, by simpa [Bind.bind, Except.bind] using h⟩

theorem pure_ok {α : Type} {x d : α}
    (h : (pure x : Except PyErr α) = .ok d) : x = d := by
  simpa [pure, Except.pure] using h

/-- Elimination form of `foldlM` success: an invariant preserved by every
successful step holds at the end. -/
theorem foldlM_ok_elim {α β : Type} (step : β → α → Except PyErr β) (Q : β → Prop)
    (l : List α) (hstep : ∀ a ∈ l, ∀ b b2, step b a = .ok b2 → Q b → Q b2) :
    ∀ b d, l.foldlM step b = .ok d → Q b → Q d := by
  induction l with
  | nil =>
      intro b d h hq
      rw [List.foldlM_nil] at h
      exact (pure_ok h) ▸ hq
  | cons a rest ih =>
      intro b d h hq
      rw [List.foldlM_cons] at h
      obtain ⟨b1, h1, h2⟩ := exceptBind_ok h
      exact ih (fun x hx => hstep x (by simp [hx])) b1 d h2
        (hstep a (by simp) b b1 h1 hq)

theorem updateApplicable_skip (f : List String → List String) (ctx : Ctx)
    (recs : Dict) (h : ¬pyTruthy (pyGet recs "applicable_policies")) :
    updateApplicable f ctx recs = .ok recs := by
  unfold updateApplicable
  dsimp only
  rw [if_neg h]
  rfl

theorem updateApplicable_shape (f : List String → List String) (ctx : Ctx)
    (recs d : Dict) (h : updateApplicable f ctx recs = .ok d) :
    d = recs ∨ ∃ v, d = assocSet recs "applicable_policies" v := by
  unfold updateApplicable at h
  dsimp only at h
  split at h
  · obtain ⟨toks, _, h2⟩ := exceptBind_ok h
    obtain ⟨actual, _, h4⟩ := exceptBind_ok h2
    exact Or.inr ⟨_, (pure_ok h4).symm⟩
  · exact Or.inl (pure_ok h).symm

theorem applyExplanationFallback_shape (pn : List (String × String)) (recs : Dict) :
    applyExplanationFallback pn recs = recs
    ∨ ∃ v, applyExplanationFallback pn recs = assocSet recs "applicable_policies" v := by
  unfold applyExplanationFallback
  split
  · exact Or.inr ⟨_, rfl⟩
  · exact Or.inl rfl

theorem updateCoverageDetails_shape (ctx : Ctx) (recs d : Dict)
    (h : updateCoverageDetails ctx recs = .ok d) :
    d = recs ∨ ∃ v, d = assocSet recs "coverage_details" v := by
  unfold updateCoverageDetails at h
  dsimp only at h
  split at h
  · obtain ⟨items, _, h2⟩ := exceptBind_ok h
    obtain ⟨actual, _, h4⟩ := exceptBind_ok h2
    exact Or.inr ⟨_, (pure_ok h4).symm⟩
  · exact Or.inl (pure_ok h).symm

theorem covAppendInit_shape (recs : Dict) :
    covAppendInit recs = recs
    ∨ covAppendInit recs = assocSet recs "coverage_details" (.list []) := by
  unfold covAppendInit
  split
  · exact Or.inr rfl
  · exact Or.inl rfl

theorem covAppend_shape (recs : Dict) (dd : Dict) (d : Dict)
    (h : covAppend recs dd = .ok d) :
    ∃ v, d = assocSet recs "coverage_details" v := by
  unfold covAppend at h
  rcases covAppendInit_shape recs with hs | hs <;> rw [hs] at h
  · revert h
    split
    · intro h
      exact ⟨_, (pure_ok h).symm⟩
    · intro h
      simp at h
  · revert h
    split
    · intro h
      exact ⟨_, by rw [← pure_ok h, assocSet_assocSet_self]⟩
    · intro h
      simp at h

theorem covAppend_pyGet (recs : Dict) (dd : Dict) (d : Dict) (k : String)
    (hk : k ≠ "coverage_details")
    (h : covAppend recs dd = .ok d) : pyGet d k = pyGet recs k := by
  obtain ⟨v, hv⟩ := covAppend_shape recs dd d h
  rw [hv, pyGet_assocSet_ne _ _ _ _ hk]

theorem synthesizeStep_pyGet (ctx : Ctx) (recs d : Dict) (it : PyVal)
    (k : String) (hk : k ≠ "coverage_details")
    (h : synthesizeStep ctx recs it = .ok d) : pyGet d k = pyGet recs k := by
  unfold synthesizeStep at h
  match it with
  | .list _ => simp at h
  | .dict _ => simp at h
  | .none =>
      rw [pure_ok h]
  | .bool _ =>
      rw [pure_ok h]
  | .int _ =>
      rw [pure_ok h]
  | .str pid =>
      simp only at h
      cases hg : assocGet? ctx.policy_map pid with
      | none => rw [hg] at h; rw [pure_ok h]
      | some info =>
          rw [hg] at h
          obtain ⟨dd, _, h2⟩ := exceptBind_ok h
          exact covAppend_pyGet recs dd d k hk h2

theorem synthesizeDetails_pyGet (ctx : Ctx) (recs d : Dict) (k : String)
    (hk : k ≠ "coverage_details")
    (h : synthesizeDetails ctx recs = .ok d) : pyGet d k = pyGet recs k := by
  unfold synthesizeDetails at h
  split at h
  · obtain ⟨items, _, h2⟩ := exceptBind_ok h
    exact foldlM_ok_elim (synthesizeStep ctx) (fun b => pyGet b k = pyGet recs k)
      items (fun a _ b b2 hs hq =>
        (synthesizeStep_pyGet ctx b b2 a k hk hs).trans hq) recs d h2 rfl
  · rw [pure_ok h]

theorem updateFilingOrder_shape (ctx : Ctx) (recs d : Dict)
    (h : updateFilingOrder ctx recs = .ok d) :
    d = recs ∨ ∃ v, d = assocSet recs "filing_order" v := by
  unfold updateFilingOrder at h
  dsimp only at h
  split at h
  · obtain ⟨toks, _, h2⟩ := exceptBind_ok h
    obtain ⟨actual, _, h4⟩ := exceptBind_ok h2
    exact Or.inr ⟨_, (pure_ok h4).symm⟩
  · exact Or.inl (pure_ok h).symm

theorem applyFilingFallback_shape (recs d : Dict)
    (h : applyFilingFallback recs = .ok d) :
    d = recs ∨ ∃ v, d = assocSet recs "filing_order" v := by
  unfold applyFilingFallback at h
  split at h
  · split at h
    · exact Or.inr ⟨_, (Except.ok.inj h).symm⟩
    · exact Or.inr ⟨_, (Except.ok.inj h).symm⟩
    · simp at h
  · exact Or.inl (Except.ok.inj h).symm

theorem applyLimitationsDefault_shape (recs : Dict) :
    applyLimitationsDefault recs = recs
    ∨ ∃ v, applyLimitationsDefault recs = assocSet recs "limitations" v := by
  unfold applyLimitationsDefault
  split
  · exact Or.inr ⟨_, rfl⟩
  · exact Or.inl rfl

theorem updateExplanation_shape (ctx : Ctx) (recs d : Dict)
    (h : updateExplanation ctx recs = .ok d) :
    d = recs ∨ ∃ v, d = assocSet recs "explanation" v := by
  unfold updateExplanation at h
  split at h
  · obtain ⟨items, _, h2⟩ := exceptBind_ok h
    obtain ⟨e, _, h4⟩ := exceptBind_ok h2
    exact Or.inr ⟨_, (pure_ok h4).symm⟩
  · exact Or.inl (pure_ok h).symm

theorem updatePolicyNumbersKey_shape (ctx : Ctx) (recs d : Dict)
    (h : updatePolicyNumbersKey ctx recs = .ok d) :
    ∃ v, d = assocSet recs "policy_numbers" v := by
  unfold updatePolicyNumbersKey at h
  obtain ⟨items, _, h2⟩ := exceptBind_ok h
  obtain ⟨pn, _, h4⟩ := exceptBind_ok h2
  refine ⟨.dict pn, ?_⟩
  rw [← pure_ok h4, assocSet_assocSet_self]

theorem formatIdList_shape (ctx : Ctx) (key : String) (recs d : Dict)
    (h : formatIdList ctx key recs = .ok d) :
    d = recs ∨ ∃ v, d = assocSet recs key v := by
  unfold formatIdList at h
  dsimp only at h
  split at h
  · obtain ⟨items, _, h2⟩ := exceptBind_ok h
    obtain ⟨new, _, h4⟩ := exceptBind_ok h2
    exact Or.inr ⟨_, (pure_ok h4).symm⟩
  · exact Or.inl (pure_ok h).symm

theorem formatCoverageDetails_shape (ctx : Ctx) (recs d : Dict)
    (h : formatCoverageDetails ctx recs = .ok d) :
    d = recs ∨ ∃ v, d = assocSet recs "coverage_details" v := by
  unfold formatCoverageDetails at h
  dsimp only at h
  split at h
  · obtain ⟨items, _, h2⟩ := exceptBind_ok h
    obtain ⟨new, _, h4⟩ := exceptBind_ok h2
    exact Or.inr ⟨_, (pure_ok h4).symm⟩
  · exact Or.inl (pure_ok h).symm

/-- Preservation of any other key across a stage of the write-one-key
shape. -/
theorem pyGet_of_shape {recs d : Dict} {key k : String}
    (h : d = recs ∨ ∃ v, d = assocSet recs key v) (hk : k ≠ key) :
    pyGet d k = pyGet recs k := by
  rcases h with h | ⟨v, h⟩
  · rw [h]
  · rw [h, pyGet_assocSet_ne _ _ _ _ hk]

theorem foldlM_const_ok {α β : Type} (step : β → α → Except PyErr β) (l : List α)
    (b : β) (hstep : ∀ a ∈ l, step b a = .ok b) : l.foldlM step b = .ok b := by
  obtain ⟨b2, h, hq⟩ := foldlM_ok_inv step (· = b) l
    (fun a ha b' hb' => ⟨b, by rw [hb']; exact hstep a ha, rfl⟩) b rfl
  rw [h, hq]

theorem resolveAll_nil_of_unres (ctx : Ctx) (toks : List PyVal)
    (h : ∀ t ∈ toks, resolveTokenDyn ctx t = .ok Option.none) :
    resolveAll ctx toks = .ok [] := by
  unfold resolveAll
  exact foldlM_const_ok _ toks [] (fun a ha => by
    simp [h a ha, Bind.bind, Except.bind, pure, Except.pure])

theorem updateApplicable_char (f : List String → List String) (ctx : Ctx)
    (recs : Dict) (toks : List PyVal) (resolved : List String)
    (hv : pyGet recs "applicable_policies" = .list toks)
    (ht : pyTruthy (.list toks))
    (hr : resolveAll ctx toks = .ok resolved) :
    updateApplicable f ctx recs
      = .ok (assocSet recs "applicable_policies"
          (.list ((f resolved).map PyVal.str))) := by
  unfold updateApplicable
  dsimp only
  rw [hv, if_pos ht]
  simp [pyIter, Bind.bind, Except.bind, hr, pure, Except.pure]

theorem applyExplanationFallback_nil (recs : Dict) :
    applyExplanationFallback [] recs = recs := by
  simp [applyExplanationFallback]

theorem updateCoverageDetails_skip (ctx : Ctx) (recs : Dict)
    (h : ¬pyTruthy (pyGet recs "coverage_details")) :
    updateCoverageDetails ctx recs = .ok recs := by
  unfold updateCoverageDetails
  dsimp only
  rw [if_neg h]
  rfl

theorem synthesizeDetails_skip (ctx : Ctx) (recs : Dict)
    (h : ¬(¬pyTruthy (pyGet recs "coverage_details")
        && pyTruthy (pyGet recs "applicable_policies")) = true) :
    synthesizeDetails ctx recs = .ok recs := by
  unfold synthesizeDetails
  rw [if_neg h]
  rfl

theorem updateFilingOrder_skip (ctx : Ctx) (recs : Dict)
    (h : ¬pyTruthy (pyGet recs "filing_order")) :
    updateFilingOrder ctx recs = .ok recs := by
  unfold updateFilingOrder
  dsimp only
  rw [if_neg h]
  rfl

theorem formatIdList_skip (ctx : Ctx) (key : String) (recs : Dict)
    (h : ¬pyTruthy (pyGet recs key)) :
    formatIdList ctx key recs = .ok recs := by
  unfold formatIdList
  dsimp only
  rw [if_neg h]
  rfl

/-- Success of the whole engine decomposes into success of every stage in
sequence; the intermediate dicts are exposed for stage-level reasoning. -/
theorem analyzeCore_ok_elim (f : List String → List String) (ps : List Policy)
    (recs out : Dict) (h : analyzeCore f ps recs = .ok out) :
    ∃ (pns : List (String × String)) (r1 r3 r4 r5 r6 r8 r9 r10 r11 : Dict),
      extractPolicyNumbers (buildCtx ps) (pyGet recs "explanation") = .ok pns
      ∧ updateApplicable f (buildCtx ps) recs = .ok r1
      ∧ updateCoverageDetails (buildCtx ps) (applyExplanationFallback pns r1) = .ok r3
      ∧ synthesizeDetails (buildCtx ps) r3 = .ok r4
      ∧ updateFilingOrder (buildCtx ps) r4 = .ok r5
      ∧ applyFilingFallback r5 = .ok r6
      ∧ updateExplanation (buildCtx ps) (applyLimitationsDefault r6) = .ok r8
      ∧ updatePolicyNumbersKey (buildCtx ps) r8 = .ok r9
      ∧ formatIdList (buildCtx ps) "applicable_policies" r9 = .ok r10
      ∧ formatCoverageDetails (buildCtx ps) r10 = .ok r11
      ∧ formatIdList (buildCtx ps) "filing_order" r11 = .ok out := by
  unfold analyzeCore at h
  obtain ⟨pns, hext, h⟩ := exceptBind_ok h
  obtain ⟨r1, h1, h⟩ := exceptBind_ok h
  obtain ⟨r3, h3, h⟩ := exceptBind_ok h
  obtain ⟨r4, h4, h⟩ := exceptBind_ok h
  obtain ⟨r5, h5, h⟩ := exceptBind_ok h
  obtain ⟨r6, h6, h⟩ := exceptBind_ok h
  obtain ⟨r8, h8, h⟩ := exceptBind_ok h
  obtain ⟨r9, h9, h⟩ := exceptBind_ok h
  obtain ⟨r10, h10, h⟩ := exceptBind_ok h
  obtain ⟨r11, h11, h⟩ := exceptBind_ok h
  obtain ⟨r12, h12, h⟩ := exceptBind_ok h
  exact ⟨pns, r1, r3, r4, r5, r6, r8, r9, r10, r11, hext, h1, h3, h4, h5, h6,
    h8, h9, h10, h11, (pure_ok h) ▸ h12⟩

/-- A health policy fixture without coverage areas (keeps concrete engine
runs free of rational arithmetic). -/
def exP1 : Policy :=
  { _id := "pid1", policy_type := "Health Insurance", policy_number := "123456" }

/-- An auto policy fixture. -/
def exP2 : Policy :=
  { _id := "pid2", policy_type := "Auto Insurance", policy_number := "222222" }

/-- A home policy fixture. -/
def exP3 : Policy :=
  { _id := "pid3", policy_type := "Home Insurance", policy_number := "333333" }

/-- C1.  The spec claims a safe-default fallback: with policies
`[P1,P2,P3]` and only the unresolvable token `"ghost-id"`, the reconciled
`applicable_policies` should be all three ids in order.  The code has no
such fallback: the result is the empty list. -/
theorem c1_counterexample :
    (analyzeCore dedupKeepFirst [exP1, exP2, exP3]
        [("applicable_policies", .list [.str "ghost-id"])]).map
      (fun d => strListOf d "applicable_policies") = .ok (some [])
    ∧ ([] : List String) ≠ ["pid1", "pid2", "pid3"] := by
  exact ⟨rfl, by decide⟩

/-- C1 (amended).  There is no fallback to the full policy list.  The
only fallback fills `applicable_policies` from ids referenced by 6-digit
`policy N` matches in the raw explanation; when every token is
unresolvable (or the field is empty or absent) and that extraction
yields nothing, the reconciled `applicable_policies` is empty (`[]`, or
the key stays absent), regardless of the input policies. -/
theorem c1_amended (f : List String → List String) (ps : List Policy)
    (recs out : Dict) (hf : SetDedup f)
    (happ : pyGet recs "applicable_policies" = PyVal.none
        ∨ ∃ toks, pyGet recs "applicable_policies" = .list toks
            ∧ ∀ t ∈ toks, resolveTokenDyn (buildCtx ps) t = .ok Option.none)
    (hpn : ∀ pns, extractPolicyNumbers (buildCtx ps) (pyGet recs "explanation")
        = .ok pns → pns = [])
    (hrun : analyzeCore f ps recs = .ok out) :
    pyGet out "applicable_policies" = PyVal.none
    ∨ pyGet out "applicable_policies" = .list [] := by
  obtain ⟨pns, r1, r3, r4, r5, r6, r8, r9, r10, r11,
    hext, h1, h3, h4, h5, h6, h8, h9, h10, h11, h12⟩ :=
    analyzeCore_ok_elim f ps recs out hrun
  have hpns : pns = [] := hpn pns hext
  subst hpns
  have hval1 : pyGet r1 "applicable_policies" = PyVal.none
      ∨ pyGet r1 "applicable_policies" = .list [] := by
    rcases happ with hnone | ⟨toks, hlist, hunres⟩
    · have hskip := updateApplicable_skip f (buildCtx ps) recs
        (by rw [hnone]; simp [pyTruthy])
      rw [hskip] at h1
      exact Or.inl ((Except.ok.inj h1) ▸ hnone)
    · by_cases htoks : toks = []
      · subst htoks
        have hskip := updateApplicable_skip f (buildCtx ps) recs
          (by rw [hlist]; simp [pyTruthy])
        rw [hskip] at h1
        exact Or.inr ((Except.ok.inj h1) ▸ hlist)
      · have hres := resolveAll_nil_of_unres (buildCtx ps) toks hunres
        have hchar := updateApplicable_char f (buildCtx ps) recs toks [] hlist
          (by simp [pyTruthy, htoks]) hres
        rw [hchar] at h1
        have hf0 : f [] = [] := by
          rcases hf [] with ⟨-, hmem⟩
          exact List.eq_nil_iff_forall_not_mem.mpr
            (fun a ha => by simpa using (hmem a).mp ha)
        rw [← Except.ok.inj h1, pyGet_assocSet_self, hf0]
        exact Or.inr rfl
  have hac : ("applicable_policies" : String) ≠ "coverage_details" := by decide
  have haf : ("applicable_policies" : String) ≠ "filing_order" := by decide
  have hal : ("applicable_policies" : String) ≠ "limitations" := by decide
  have hae : ("applicable_policies" : String) ≠ "explanation" := by decide
  have hap : ("applicable_policies" : String) ≠ "policy_numbers" := by decide
  have h3' : updateCoverageDetails (buildCtx ps) r1 = .ok r3 := by
    rw [applyExplanationFallback_nil] at h3
    exact h3
  have e3 : pyGet r3 "applicable_policies" = pyGet r1 "applicable_policies" :=
    pyGet_of_shape (updateCoverageDetails_shape _ _ _ h3') hac
  have e4 : pyGet r4 "applicable_policies" = pyGet r3 "applicable_policies" :=
    synthesizeDetails_pyGet _ _ _ _ hac h4
  have e5 : pyGet r5 "applicable_policies" = pyGet r4 "applicable_policies" :=
    pyGet_of_shape (updateFilingOrder_shape _ _ _ h5) haf
  have e6 : pyGet r6 "applicable_policies" = pyGet r5 "applicable_policies" :=
    pyGet_of_shape (applyFilingFallback_shape _ _ h6) haf
  have e7 : pyGet (applyLimitationsDefault r6) "applicable_policies"
      = pyGet r6 "applicable_policies" :=
    pyGet_of_shape (applyLimitationsDefault_shape r6) hal
  have e8 : pyGet r8 "applicable_policies"
      = pyGet (applyLimitationsDefault r6) "applicable_policies" :=
    pyGet_of_shape (updateExplanation_shape _ _ _ h8) hae
  have e9 : pyGet r9 "applicable_policies" = pyGet r8 "applicable_policies" :=
    pyGet_of_shape (Or.inr (updatePolicyNumbersKey_shape _ _ _ h9)) hap
  have hval9 : pyGet r9 "applicable_policies" = PyVal.none
      ∨ pyGet r9 "applicable_policies" = .list [] := by
    rw [e9, e8, e7, e6, e5, e4, e3]
    exact hval1
  have hskip10 : r10 = r9 := by
    have hsk := formatIdList_skip (buildCtx ps) "applicable_policies" r9
      (by rcases hval9 with hv | hv <;> rw [hv] <;> simp [pyTruthy])
    rw [hsk] at h10
    exact (Except.ok.inj h10).symm
  have e11 : pyGet r11 "applicable_policies" = pyGet r10 "applicable_policies" :=
    pyGet_of_shape (formatCoverageDetails_shape _ _ _ h11) hac
  have e12 : pyGet out "applicable_policies" = pyGet r11 "applicable_policies" :=
    pyGet_of_shape (formatIdList_shape _ _ _ _ h12) haf
  rw [e12, e11, hskip10]
  exact hval9

/-- The reconciled dict produced for one policy and the single
unresolvable token `"ghost"`. -/
def outC1 : Dict :=
  [("applicable_policies", PyVal.list []),
   ("limitations", PyVal.list
      [.str "See policy for specific limitations and exclusions."]),
   ("policy_numbers", PyVal.dict [])]

/-- C1 witness: the amended statement applied to a concrete run with one
unresolvable token and no explanation. -/
theorem c1_amended_witness :
    pyGet outC1 "applicable_policies" = PyVal.none
    ∨ pyGet outC1 "applicable_policies" = PyVal.list [] :=
  c1_amended dedupKeepFirst [exP1]
    [("applicable_policies", .list [.str "ghost"])] outC1
    setDedup_dedupKeepFirst
    (Or.inr ⟨[.str "ghost"], rfl, by
      intro t ht
      simp only [List.mem_singleton] at ht
      subst ht
      rfl⟩)
    (fun pns h => by
      have h' : Except.ok ([] : List (String × String)) = Except.ok pns := h
      exact (Except.ok.inj h').symm)
    rfl

theorem updateFilingOrder_char (ctx : Ctx) (recs : Dict) (toks : List PyVal)
    (resolved : List String)
    (hv : pyGet recs "filing_order" = .list toks)
    (ht : pyTruthy (.list toks))
    (hr : resolveAll ctx toks = .ok resolved) :
    updateFilingOrder ctx recs
      = .ok (assocSet recs "filing_order"
          (.list ((dedupKeepFirst resolved).map PyVal.str))) := by
  unfold updateFilingOrder
  dsimp only
  rw [hv, if_pos ht]
  simp [pyIter, Bind.bind, Except.bind, hr, pure, Except.pure]

/-- C5.  The spec claims first-occurrence dedup order for both lists.
`applicable_policies` is deduplicated with `list(set(...))`, whose order
is unspecified: under the admissible set order `revDedup`, the tokens
`["pid1", "123456", "pid2"]` (the first two resolve to the same policy)
come out in the order P2, P1 instead of the claimed first-occurrence
order P1, P2. -/
theorem c5_counterexample :
    SetDedup revDedup
    ∧ (analyzeCore revDedup [exP1, exP2]
        [("applicable_policies",
          .list [.str "pid1", .str "123456", .str "pid2"])]).map
        (fun d => strListOf d "applicable_policies")
      = .ok (some ["Policy 222222 ()...", "Policy 123456 ()..."])
    ∧ (["Policy 222222 ()...", "Policy 123456 ()..."] : List String)
      ≠ ["Policy 123456 ()...", "Policy 222222 ()..."] := by
  exact ⟨setDedup_revDedup, rfl, by decide⟩

/-- C5 (amended).  Both list reconciliations deduplicate: every resolved
policy id appears exactly once.  First-occurrence order is guaranteed
only for `filing_order` (`list(dict.fromkeys(...))`, a stable dedup whose
output is a duplicate-free sublist of the resolved sequence);
`applicable_policies` goes through `list(set(...))`, so its order is
whatever the set iteration yields. -/
theorem c5_amended (f : List String → List String) (ctx : Ctx)
    (recs recsF : Dict) (toks toksF : List PyVal)
    (resolved resolvedF : List String) (d dF : Dict)
    (hf : SetDedup f)
    (hv : pyGet recs "applicable_policies" = .list toks)
    (hne : toks ≠ [])
    (hr : resolveAll ctx toks = .ok resolved)
    (hd : updateApplicable f ctx recs = .ok d)
    (hvF : pyGet recsF "filing_order" = .list toksF)
    (hneF : toksF ≠ [])
    (hrF : resolveAll ctx toksF = .ok resolvedF)
    (hdF : updateFilingOrder ctx recsF = .ok dF) :
    (∃ ids : List String, pyGet d "applicable_policies" = .list (ids.map PyVal.str)
      ∧ ids.Nodup ∧ (∀ a, a ∈ ids ↔ a ∈ resolved))
    ∧ pyGet dF "filing_order" = .list ((dedupKeepFirst resolvedF).map PyVal.str)
    ∧ (dedupKeepFirst resolvedF).Nodup
    ∧ (∀ a, a ∈ dedupKeepFirst resolvedF ↔ a ∈ resolvedF)
    ∧ List.Sublist (dedupKeepFirst resolvedF) resolvedF := by
  have ht : pyTruthy (.list toks) := by simp [pyTruthy, hne]
  have htF : pyTruthy (.list toksF) := by simp [pyTruthy, hneF]
  have hchar := updateApplicable_char f ctx recs toks resolved hv ht hr
  rw [hchar] at hd
  have hcharF := updateFilingOrder_char ctx recsF toksF resolvedF hvF htF hrF
  rw [hcharF] at hdF
  refine ⟨⟨f resolved, ?_, (hf resolved).1, (hf resolved).2⟩, ?_, ?_, ?_, ?_⟩
  · rw [← Except.ok.inj hd, pyGet_assocSet_self]
  · rw [← Except.ok.inj hdF, pyGet_assocSet_self]
  · exact nodup_dedupKeepFirst resolvedF
  · exact fun a => mem_dedupKeepFirst resolvedF a
  · exact dedupKeepFirst_sublist resolvedF

/-- C5 witness: the amended statement applied to concrete token lists in
which two tokens resolve to the same policy. -/
theorem c5_amended_witness :
    (∃ ids : List String, pyGet (assocSet
        [("applicable_policies",
          PyVal.list [.str "pid1", .str "123456", .str "pid2"])]
        "applicable_policies"
        (.list ((dedupKeepFirst ["pid1", "pid1", "pid2"]).map PyVal.str)))
        "applicable_policies" = .list (ids.map PyVal.str)
      ∧ ids.Nodup ∧ (∀ a, a ∈ ids ↔ a ∈ ["pid1", "pid1", "pid2"]))
    ∧ pyGet (assocSet
        [("filing_order", PyVal.list [.str "pid1", .str "123456", .str "pid2"])]
        "filing_order"
        (.list ((dedupKeepFirst ["pid1", "pid1", "pid2"]).map PyVal.str)))
        "filing_order"
      = .list ((dedupKeepFirst ["pid1", "pid1", "pid2"]).map PyVal.str)
    ∧ (dedupKeepFirst ["pid1", "pid1", "pid2"]).Nodup
    ∧ (∀ a, a ∈ dedupKeepFirst ["pid1", "pid1", "pid2"]
        ↔ a ∈ ["pid1", "pid1", "pid2"])
    ∧ List.Sublist (dedupKeepFirst ["pid1", "pid1", "pid2"])
        ["pid1", "pid1", "pid2"] :=
  c5_amended dedupKeepFirst (buildCtx [exP1, exP2])
    [("applicable_policies", PyVal.list [.str "pid1", .str "123456", .str "pid2"])]
    [("filing_order", PyVal.list [.str "pid1", .str "123456", .str "pid2"])]
    [.str "pid1", .str "123456", .str "pid2"]
    [.str "pid1", .str "123456", .str "pid2"]
    ["pid1", "pid1", "pid2"] ["pid1", "pid1", "pid2"] _ _
    setDedup_dedupKeepFirst
    rfl (List.cons_ne_nil _ _) rfl rfl
    rfl (List.cons_ne_nil _ _) rfl rfl

theorem policyMap_mem_go (ps : List Policy) :
    ∀ (acc : List (String × PolicyInfo) × List (String × String) × List (String × String))
      (pid : String) (info : PolicyInfo),
      assocGet? (ps.foldl mapsStep acc).1 pid = some info →
      (∃ p ∈ ps, p._id = pid ∧ info = mkInfo p) ∨ assocGet? acc.1 pid = some info := by
  induction ps with
  | nil => intro acc pid info h; exact Or.inr h
  | cons p rest ih =>
      intro acc pid info h
      rw [List.foldl_cons] at h
      rcases ih (mapsStep acc p) pid info h with hin | hacc
      · obtain ⟨q, hq, hqi, hqe⟩ := hin
        exact Or.inl ⟨q, by simp [hq], hqi, hqe⟩
      · have hstep : (mapsStep acc p).1 = assocSet acc.1 p._id (mkInfo p) := by
          by_cases hn : effectiveNumber p = "" <;> simp [mapsStep, hn]
        rw [hstep] at hacc
        by_cases he : p._id = pid
        · subst he
          rw [assocGet?_assocSet_self] at hacc
          exact Or.inl ⟨p, by simp, rfl, (Option.some.inj hacc).symm⟩
        · rw [assocGet?_assocSet_ne _ _ _ _ (fun hh => he hh.symm)] at hacc
          exact Or.inr hacc

/-- Every `policy_map` entry comes from a policy of the input list. -/
theorem policyMap_mem (ps : List Policy) (pid : String) (info : PolicyInfo)
    (h : assocGet? (buildCtx ps).policy_map pid = some info) :
    ∃ p ∈ ps, p._id = pid ∧ info = mkInfo p := by
  have h' : assocGet? (ps.foldl mapsStep ([], [], [])).1 pid = some info := h
  rcases policyMap_mem_go ps ([], [], []) pid info h' with hin | habs
  · exact hin
  · simp [assocGet?] at habs

/-- Every entry of a list produced by the final id-formatting pass is the
display string of some `policy_map` entry. -/
theorem formatIdList_entries (ctx : Ctx) (key : String) (recs d : Dict)
    (h : formatIdList ctx key recs = .ok d) :
    ∀ vs, pyGet d key = .list vs →
      ∀ e ∈ vs, ∃ pid info, assocGet? ctx.policy_map pid = some info
        ∧ e = .str (displayStr ctx pid info) := by
  intro vs hv e he
  unfold formatIdList at h
  dsimp only at h
  split at h
  · obtain ⟨items, hi, h2⟩ := exceptBind_ok h
    obtain ⟨new, hn, h4⟩ := exceptBind_ok h2
    have hd : d = assocSet recs key (.list new) := (pure_ok h4).symm
    have hvs : vs = new := by
      rw [hd, pyGet_assocSet_self] at hv
      exact (PyVal.list.inj hv).symm
    have hQ : ∀ e ∈ new, ∃ pid info, assocGet? ctx.policy_map pid = some info
        ∧ e = .str (displayStr ctx pid info) := by
      refine foldlM_ok_elim _
        (fun acc => ∀ e ∈ acc, ∃ pid info,
          assocGet? ctx.policy_map pid = some info
          ∧ e = .str (displayStr ctx pid info)) items ?_ [] new hn (by simp)
      intro a _ b b2 hs hq e2 he2
      unfold formatIdStep at hs
      match a with
      | .list _ => simp at hs
      | .dict _ => simp at hs
      | .str pid =>
          simp only at hs
          cases hg : assocGet? ctx.policy_map pid with
          | none =>
              rw [hg] at hs
              exact hq e2 ((pure_ok hs) ▸ he2)
          | some info =>
              rw [hg] at hs
              have hb2 : b2 = b ++ [.str (displayStr ctx pid info)] :=
                (pure_ok hs).symm
              subst hb2
              rcases List.mem_append.mp he2 with hmem | hmem
              · exact hq e2 hmem
              · exact ⟨pid, info, hg, by simpa using hmem⟩
      | .none => exact hq e2 ((pure_ok hs) ▸ he2)
      | .bool _ => exact hq e2 ((pure_ok hs) ▸ he2)
      | .int _ => exact hq e2 ((pure_ok hs) ▸ he2)
    exact hQ e (hvs ▸ he)
  · have hd : d = recs := (pure_ok h).symm
    subst hd
    rename_i hguard
    rw [hv] at hguard
    have : vs = [] := by
      simpa [pyTruthy] using hguard
    subst this
    simp at he

/-- C3.  The spec claims every entry of the final `applicable_policies`
and `filing_order` is a real PolicyRecord id (or a labeled unresolved
placeholder).  The code's final formatting pass replaces each id with the
display string `Policy N (areas)...`, which is not an id of the input
list (and no placeholder mechanism exists). -/
theorem c3_counterexample :
    (analyzeCore dedupKeepFirst [exP1]
        [("applicable_policies", .list [.str "pid1"])]).map
      (fun d => strListOf d "applicable_policies")
      = .ok (some ["Policy 123456 ()..."])
    ∧ ("Policy 123456 ()..." : String) ≠ "pid1"
    ∧ exP1._id = "pid1" := by
  exact ⟨rfl, by decide, rfl⟩

/-- C3 (amended).  Every entry of the final `applicable_policies` and
`filing_order` lists is the display rendering
`Policy number-or-id (coverage area names)...` of a real policy from the
input list; unresolved tokens are silently dropped rather than kept as
placeholders, so entries always correspond to real policies, but they
are display strings, not ids. -/
theorem c3_amended (f : List String → List String) (ps : List Policy)
    (recs out : Dict) (hrun : analyzeCore f ps recs = .ok out) :
    (∀ vs, pyGet out "applicable_policies" = .list vs →
      ∀ e ∈ vs, ∃ p ∈ ps, e = .str (displayStr (buildCtx ps) p._id (mkInfo p)))
    ∧ (∀ vs, pyGet out "filing_order" = .list vs →
      ∀ e ∈ vs, ∃ p ∈ ps, e = .str (displayStr (buildCtx ps) p._id (mkInfo p))) := by
  obtain ⟨pns, r1, r3, r4, r5, r6, r8, r9, r10, r11,
    hext, h1, h3, h4, h5, h6, h8, h9, h10, h11, h12⟩ :=
    analyzeCore_ok_elim f ps recs out hrun
  constructor
  · intro vs hv e he
    have e11 : pyGet r11 "applicable_policies" = pyGet r10 "applicable_policies" :=
      pyGet_of_shape (formatCoverageDetails_shape _ _ _ h11) (by decide)
    have e12 : pyGet out "applicable_policies" = pyGet r11 "applicable_policies" :=
      pyGet_of_shape (formatIdList_shape _ _ _ _ h12) (by decide)
    have hv10 : pyGet r10 "applicable_policies" = .list vs := by
      rw [← e11, ← e12]
      exact hv
    obtain ⟨pid, info, hg, hE⟩ :=
      formatIdList_entries (buildCtx ps) "applicable_policies" r9 r10 h10 vs hv10 e he
    obtain ⟨p, hp, hpi, hpe⟩ := policyMap_mem ps pid info hg
    exact ⟨p, hp, by rw [hE, hpi, hpe]⟩
  · intro vs hv e he
    obtain ⟨pid, info, hg, hE⟩ :=
      formatIdList_entries (buildCtx ps) "filing_order" r11 out h12 vs hv e he
    obtain ⟨p, hp, hpi, hpe⟩ := policyMap_mem ps pid info hg
    exact ⟨p, hp, by rw [hE, hpi, hpe]⟩

/-- The reconciled dict produced from one policy and its exact id. -/
def outC3 : Dict :=
  [("applicable_policies", PyVal.list [.str "Policy 123456 ()..."]),
   ("coverage_details", PyVal.list
      [PyVal.dict
        [("policy_id", .str "Policy 123456 ()..."),
         ("estimated_coverage", .str "See policy for details"),
         ("deductible", .str "See policy for details"),
         ("copay", .str "See policy for details")]]),
   ("filing_order", PyVal.list [.str "Policy 123456 ()..."]),
   ("limitations", PyVal.list
      [.str "See policy for specific limitations and exclusions."]),
   ("policy_numbers", PyVal.dict [("pid1", .str "123456")])]

/-- C3 witness: the amended statement applied to a concrete successful
run. -/
theorem c3_amended_witness :
    (∀ vs, pyGet outC3 "applicable_policies" = .list vs →
      ∀ e ∈ vs, ∃ p ∈ [exP1],
        e = .str (displayStr (buildCtx [exP1]) p._id (mkInfo p)))
    ∧ (∀ vs, pyGet outC3 "filing_order" = .list vs →
      ∀ e ∈ vs, ∃ p ∈ [exP1],
        e = .str (displayStr (buildCtx [exP1]) p._id (mkInfo p))) :=
  c3_amended dedupKeepFirst [exP1]
    [("applicable_policies", .list [.str "pid1"])] outC3 rfl

theorem fillDetail_ok (info : PolicyInfo) (kvs0 : Dict)
    (hwf : allLimitsParse info.coverage_areas = true) :
    ∃ kvs2, fillDetail info kvs0 = .ok kvs2 := by
  unfold fillDetail
  have hsum : coverageSum info.coverage_areas
      = .ok (coverageSumSpec info.coverage_areas) :=
    (coverageSum_go info.coverage_areas 0).1 hwf
  by_cases h1 : (!assocHas kvs0 "estimated_coverage") = true
  · rw [if_pos h1]
    by_cases h2 : (!info.coverage_areas.isEmpty) = true
    · rw [if_pos h2]
      exact ⟨_, by rw [hsum]; rfl⟩
    · rw [if_neg h2]
      exact ⟨_, rfl⟩
  · rw [if_neg h1]
    exact ⟨_, rfl⟩

/-- C10 helper: a raw coverage detail whose `policy_id` is exactly an
authoritative id is processed by the branch at lines 311-328, which
backfills fields but never appends, so the entry is dropped. -/
theorem repairDetail_exactId_drop (ctx : Ctx) (kvs : Dict) (pid : String)
    (info : PolicyInfo)
    (hpid : assocGetD kvs "policy_id" (.str "") = .str pid)
    (hg : assocGet? ctx.policy_map pid = some info)
    (hwf : allLimitsParse info.coverage_areas = true) :
    repairDetail ctx (.dict kvs) = .ok Option.none := by
  unfold repairDetail
  simp only [hpid, hg]
  obtain ⟨kvs2, hf⟩ := fillDetail_ok info (assocSet kvs "policy_id" (.str pid)) hwf
  change (fillDetail info (assocSet kvs "policy_id" (.str pid)) >>= fun _ =>
    pure Option.none) = Except.ok Option.none
  rw [hf]
  rfl

theorem updateCoverageDetails_allExact (ctx : Ctx) (recs : Dict)
    (ds : List PyVal)
    (hv : pyGet recs "coverage_details" = .list ds) (hne : ds ≠ [])
    (hall : ∀ d ∈ ds, repairDetail ctx d = .ok Option.none) :
    updateCoverageDetails ctx recs
      = .ok (assocSet recs "coverage_details" (.list [])) := by
  unfold updateCoverageDetails
  dsimp only
  rw [hv, if_pos (by simp [pyTruthy, hne])]
  have hfold : ds.foldlM (fun acc it => do
      let r ← repairDetail ctx it
      pure (match r with
        | some d => acc ++ [d]
        | Option.none => acc)) ([] : List PyVal) = .ok [] :=
    foldlM_const_ok _ ds [] (fun a ha => by
      rw [show ((do
        let r ← repairDetail ctx a
        pure (match r with
          | some d => ([] : List PyVal) ++ [d]
          | Option.none => [])) : Except PyErr (List PyVal))
        = ((repairDetail ctx a) >>= fun r =>
          pure (match r with
            | some d => ([] : List PyVal) ++ [d]
            | Option.none => [])) from rfl]
      rw [hall a ha]
      rfl)
  change ((ds.foldlM (fun acc it => do
      let r ← repairDetail ctx it
      pure (match r with
        | some d => acc ++ [d]
        | Option.none => acc)) ([] : List PyVal)) >>= fun actual =>
    pure (assocSet recs "coverage_details" (.list actual)))
    = Except.ok (assocSet recs "coverage_details" (.list []))
  rw [hfold]
  rfl

/-- An oracle payload whose only coverage detail references its policy by
exact id and carries explicit numbers. -/
def rcC10 : Dict :=
  [("applicable_policies", PyVal.list [.str "pid1"]),
   ("coverage_details", PyVal.list
      [PyVal.dict
        [("policy_id", .str "pid1"),
         ("estimated_coverage", .str "$9,999.99"),
         ("deductible", .str "$1"),
         ("copay", .str "5%")]])]

/-- C10.  In the coverage-details repair pass, every raw entry whose
`policy_id` is exactly an authoritative id is omitted from the rebuilt
list (the exact-id branch never appends); consequently, when every raw
entry references its policy by exact id, the rebuilt list is empty and
the engine synthesizes default details for the applicable policies,
discarding the oracle-provided numbers (here `$9,999.99` is replaced by
the synthesized default). -/
theorem c10_confirmed :
    (∀ (ctx : Ctx) (recs : Dict) (ds : List PyVal),
      pyGet recs "coverage_details" = .list ds → ds ≠ [] →
      (∀ d ∈ ds, ∃ kvs pid info, d = .dict kvs
        ∧ assocGetD kvs "policy_id" (.str "") = .str pid
        ∧ assocGet? ctx.policy_map pid = some info
        ∧ allLimitsParse info.coverage_areas = true) →
      updateCoverageDetails ctx recs
        = .ok (assocSet recs "coverage_details" (.list [])))
    ∧ (analyzeCore dedupKeepFirst [exP1] rcC10).map
        (fun d => pyGet d "coverage_details")
      = .ok (.list [.dict [("policy_id", .str "Policy 123456 ()..."),
          ("estimated_coverage", .str "See policy for details"),
          ("deductible", .str "See policy for details"),
          ("copay", .str "See policy for details")]])
    ∧ ("See policy for details" : String) ≠ "$9,999.99" := by
  refine ⟨?_, rfl, by decide⟩
  intro ctx recs ds hv hne hall
  refine updateCoverageDetails_allExact ctx recs ds hv hne ?_
  intro d hd
  obtain ⟨kvs, pid, info, hdd, hpid, hg, hwf⟩ := hall d hd
  rw [hdd]
  exact repairDetail_exactId_drop ctx kvs pid info hpid hg hwf

/-- C10 witness: the general omission statement applied to the concrete
payload `rcC10`. -/
theorem c10_confirmed_witness :
    updateCoverageDetails (buildCtx [exP1]) rcC10
      = .ok (assocSet rcC10 "coverage_details" (.list [])) :=
  c10_confirmed.1 (buildCtx [exP1]) rcC10
    [PyVal.dict
      [("policy_id", .str "pid1"),
       ("estimated_coverage", .str "$9,999.99"),
       ("deductible", .str "$1"),
       ("copay", .str "5%")]]
    rfl (by simp)
    (by
      intro d hd
      simp only [List.mem_singleton] at hd
      subst hd
      exact ⟨_, "pid1", mkInfo exP1, rfl, rfl, rfl, rfl⟩)

theorem assocSet_eq_self (kvs : List (String × α)) (k : String) (v : α)
    (h : assocGet? kvs k = some v) : assocSet kvs k v = kvs := by
  induction kvs with
  | nil => simp [assocGet?] at h
  | cons kv rest ih =>
      obtain ⟨k0, v0⟩ := kv
      by_cases hk : k0 = k
      · subst hk
        rw [assocGet?] at h
        simp only [if_pos rfl] at h
        rw [assocSet, if_pos rfl, Option.some.inj h]
      · rw [assocGet?, if_neg hk] at h
        rw [assocSet, if_neg hk, ih h]

theorem assocGet?_of_pyGet_ne_none (recs : Dict) (k : String) (v : PyVal)
    (h : pyGet recs k = v) (hne : v ≠ PyVal.none) :
    assocGet? recs k = some v := by
  unfold pyGet assocGetD at h
  cases hg : assocGet? recs k with
  | none => rw [hg] at h; exact absurd h.symm hne
  | some w =>
      rw [hg] at h
      simpa using h

/-- The final id-formatting pass as a function of the iterated items:
keep each string item found in `policy_map`, rendered as its display
string. -/
def fmtIds (ctx : Ctx) : List PyVal → List PyVal
  | [] => []
  | it :: rest =>
      match it with
      | .str pid =>
          (match assocGet? ctx.policy_map pid with
          | some info => .str (displayStr ctx pid info) :: fmtIds ctx rest
          | Option.none => fmtIds ctx rest)
      | _ => fmtIds ctx rest

/-- The final coverage-formatting pass on one (well-formed) entry:
rewrite `policy_id` to the display string when it is a known id. -/
def fmtCovEntry (ctx : Ctx) (v : PyVal) : PyVal :=
  match v with
  | .dict kvs =>
      (match assocGetD kvs "policy_id" (.str "") with
      | .str pid =>
          (match assocGet? ctx.policy_map pid with
          | some info => .dict (assocSet kvs "policy_id"
              (.str (displayStr ctx pid info)))
          | Option.none => .dict kvs)
      | _ => .dict kvs)
  | _ => v

/-- The synthesis loop as a function of the iterated items: one
synthesized detail per string item found in `policy_map`. -/
def synthList (ctx : Ctx) : List PyVal → Except PyErr (List PyVal)
  | [] => .ok []
  | it :: rest =>
      match it with
      | .list _ => .error .typeError
      | .dict _ => .error .typeError
      | .str pid =>
          (match assocGet? ctx.policy_map pid with
          | some info => do
              let dd ← synthDetail pid info
              let tail ← synthList ctx rest
              pure (.dict dd :: tail)
          | Option.none => synthList ctx rest)
      | _ => synthList ctx rest

theorem fmtIdsFold_go (ctx : Ctx) (items : List PyVal) :
    ∀ (acc res : List PyVal),
      items.foldlM (formatIdStep ctx) acc = .ok res →
      res = acc ++ fmtIds ctx items := by
  induction items with
  | nil =>
      intro acc res h
      rw [List.foldlM_nil] at h
      simp [fmtIds, (pure_ok h)]
  | cons a rest ih =>
      intro acc res h
      rw [List.foldlM_cons] at h
      obtain ⟨b1, hstep, hrest⟩ := exceptBind_ok h
      unfold formatIdStep at hstep
      match a with
      | .list _ => simp at hstep
      | .dict _ => simp at hstep
      | .str pid =>
          simp only at hstep
          cases hg : assocGet? ctx.policy_map pid with
          | some info =>
              rw [hg] at hstep
              have hb1 : b1 = acc ++ [.str (displayStr ctx pid info)] :=
                (Except.ok.inj hstep).symm
              subst hb1
              rw [ih _ res hrest]
              simp [fmtIds, hg]
          | none =>
              rw [hg] at hstep
              have hb1 : b1 = acc := (Except.ok.inj hstep).symm
              subst hb1
              rw [ih _ res hrest]
              simp [fmtIds, hg]
      | .none =>
          have hb1 : b1 = acc := (Except.ok.inj hstep).symm
          subst hb1
          rw [ih _ res hrest]
          simp [fmtIds]
      | .bool _ =>
          have hb1 : b1 = acc := (Except.ok.inj hstep).symm
          subst hb1
          rw [ih _ res hrest]
          simp [fmtIds]
      | .int _ =>
          have hb1 : b1 = acc := (Except.ok.inj hstep).symm
          subst hb1
          rw [ih _ res hrest]
          simp [fmtIds]

theorem fmtCovFold_go (ctx : Ctx) (items : List PyVal) :
    ∀ (acc res : List PyVal),
      items.foldlM (formatCovStep ctx) acc = .ok res →
      res = acc ++ items.map (fmtCovEntry ctx) := by
  induction items with
  | nil =>
      intro acc res h
      rw [List.foldlM_nil] at h
      simp [(pure_ok h)]
  | cons a rest ih =>
      intro acc res h
      rw [List.foldlM_cons] at h
      obtain ⟨b1, hstep, hrest⟩ := exceptBind_ok h
      unfold formatCovStep at hstep
      match a with
      | .none | .bool _ | .int _ | .str _ | .list _ => simp at hstep
      | .dict kvs =>
          simp only at hstep
          match hl : assocGetD kvs "policy_id" (.str "") with
          | .list _ => rw [hl] at hstep; simp at hstep
          | .dict _ => rw [hl] at hstep; simp at hstep
          | .str pid =>
              rw [hl] at hstep
              simp only at hstep
              cases hg : assocGet? ctx.policy_map pid with
              | some info =>
                  rw [hg] at hstep
                  have hb1 : b1 = acc ++ [.dict (assocSet kvs "policy_id"
                      (.str (displayStr ctx pid info)))] :=
                    (Except.ok.inj hstep).symm
                  subst hb1
                  rw [ih _ res hrest]
                  simp [fmtCovEntry, hl, hg]
              | none =>
                  rw [hg] at hstep
                  have hb1 : b1 = acc ++ [.dict kvs] := (Except.ok.inj hstep).symm
                  subst hb1
                  rw [ih _ res hrest]
                  simp [fmtCovEntry, hl, hg]
          | .none =>
              rw [hl] at hstep
              simp only at hstep
              have hb1 : b1 = acc ++ [.dict kvs] := (Except.ok.inj hstep).symm
              subst hb1
              rw [ih _ res hrest]
              simp [fmtCovEntry, hl]
          | .bool _ =>
              rw [hl] at hstep
              simp only at hstep
              have hb1 : b1 = acc ++ [.dict kvs] := (Except.ok.inj hstep).symm
              subst hb1
              rw [ih _ res hrest]
              simp [fmtCovEntry, hl]
          | .int _ =>
              rw [hl] at hstep
              simp only at hstep
              have hb1 : b1 = acc ++ [.dict kvs] := (Except.ok.inj hstep).symm
              subst hb1
              rw [ih _ res hrest]
              simp [fmtCovEntry, hl]

theorem covAppendInit_of_list (recs : Dict) (cur : List PyVal)
    (hcur : pyGet recs "coverage_details" = .list cur) :
    covAppendInit recs
      = (if cur.isEmpty then assocSet recs "coverage_details" (.list [])
         else recs)
    ∧ pyGet (covAppendInit recs) "coverage_details" = .list cur := by
  unfold covAppendInit
  rw [hcur]
  by_cases hc : cur = []
  · subst hc
    rw [if_pos (by simp [pyTruthy])]
    exact ⟨by simp, pyGet_assocSet_self _ _ _⟩
  · rw [if_neg (by simp [pyTruthy, hc])]
    refine ⟨?_, hcur⟩
    rw [if_neg (by simp [hc])]

theorem covAppend_of_list (recs : Dict) (dd : Dict) (cur : List PyVal)
    (hcur : pyGet recs "coverage_details" = .list cur) :
    covAppend recs dd
      = .ok (assocSet recs "coverage_details" (.list (cur ++ [.dict dd]))) := by
  obtain ⟨hinit, hget⟩ := covAppendInit_of_list recs cur hcur
  unfold covAppend
  rw [hget, hinit]
  by_cases hc : cur = []
  · subst hc
    rw [if_pos (by simp)]
    simp only [assocSet_assocSet_self, List.nil_append]
    rfl
  · rw [if_neg (by simp [hc])]
    rfl

theorem covAppend_of_falsy (recs : Dict) (dd : Dict)
    (h : ¬pyTruthy (pyGet recs "coverage_details")) :
    covAppend recs dd
      = .ok (assocSet recs "coverage_details" (.list [.dict dd])) := by
  unfold covAppend covAppendInit
  rw [if_pos (by simpa using h), pyGet_assocSet_self]
  simp only [assocSet_assocSet_self, List.nil_append]
  rfl

theorem synthFold_go_list (ctx : Ctx) (items : List PyVal) :
    ∀ (recs0 d : Dict) (cur : List PyVal),
      pyGet recs0 "coverage_details" = .list cur → cur ≠ [] →
      items.foldlM (synthesizeStep ctx) recs0 = .ok d →
      ∃ ds, synthList ctx items = .ok ds
        ∧ d = assocSet recs0 "coverage_details" (.list (cur ++ ds)) := by
  induction items with
  | nil =>
      intro recs0 d cur hcur hne h
      rw [List.foldlM_nil] at h
      refine ⟨[], rfl, ?_⟩
      rw [← pure_ok h, List.append_nil]
      exact (assocSet_eq_self _ _ _
        (assocGet?_of_pyGet_ne_none _ _ _ hcur (by simp))).symm
  | cons a rest ih =>
      intro recs0 d cur hcur hne h
      rw [List.foldlM_cons] at h
      obtain ⟨r1, hstep, hrest⟩ := exceptBind_ok h
      unfold synthesizeStep at hstep
      match a with
      | .list _ => simp at hstep
      | .dict _ => simp at hstep
      | .none =>
          rw [← pure_ok hstep] at hrest
          obtain ⟨ds, hds, hd⟩ := ih recs0 d cur hcur hne hrest
          exact ⟨ds, by simp [synthList, hds], hd⟩
      | .bool _ =>
          rw [← pure_ok hstep] at hrest
          obtain ⟨ds, hds, hd⟩ := ih recs0 d cur hcur hne hrest
          exact ⟨ds, by simp [synthList, hds], hd⟩
      | .int _ =>
          rw [← pure_ok hstep] at hrest
          obtain ⟨ds, hds, hd⟩ := ih recs0 d cur hcur hne hrest
          exact ⟨ds, by simp [synthList, hds], hd⟩
      | .str pid =>
          simp only at hstep
          cases hg : assocGet? ctx.policy_map pid with
          | none =>
              rw [hg] at hstep
              rw [← pure_ok hstep] at hrest
              obtain ⟨ds, hds, hd⟩ := ih recs0 d cur hcur hne hrest
              exact ⟨ds, by simp [synthList, hg, hds], hd⟩
          | some info =>
              rw [hg] at hstep
              obtain ⟨dd, hdd, hca⟩ := exceptBind_ok hstep
              rw [covAppend_of_list recs0 dd cur hcur] at hca
              rw [← Except.ok.inj hca] at hrest
              obtain ⟨ds, hds, hd⟩ := ih _ d (cur ++ [.dict dd])
                (pyGet_assocSet_self _ _ _) (by simp) hrest
              refine ⟨.dict dd :: ds, ?_, ?_⟩
              · simp [synthList, hg, hdd, hds, Bind.bind, Except.bind,
                  pure, Except.pure]
              · rw [hd, assocSet_assocSet_self]
                simp

theorem synthFold_go_falsy (ctx : Ctx) (items : List PyVal) :
    ∀ (recs0 d : Dict),
      ¬pyTruthy (pyGet recs0 "coverage_details") →
      items.foldlM (synthesizeStep ctx) recs0 = .ok d →
      ∃ ds, synthList ctx items = .ok ds
        ∧ d = (if ds.isEmpty then recs0
            else assocSet recs0 "coverage_details" (.list ds)) := by
  induction items with
  | nil =>
      intro recs0 d hf h
      rw [List.foldlM_nil] at h
      exact ⟨[], rfl, by rw [← pure_ok h]; rfl⟩
  | cons a rest ih =>
      intro recs0 d hf h
      rw [List.foldlM_cons] at h
      obtain ⟨r1, hstep, hrest⟩ := exceptBind_ok h
      unfold synthesizeStep at hstep
      match a with
      | .list _ => simp at hstep
      | .dict _ => simp at hstep
      | .none =>
          rw [← pure_ok hstep] at hrest
          obtain ⟨ds, hds, hd⟩ := ih recs0 d hf hrest
          exact ⟨ds, by simp [synthList, hds], hd⟩
      | .bool _ =>
          rw [← pure_ok hstep] at hrest
          obtain ⟨ds, hds, hd⟩ := ih recs0 d hf hrest
          exact ⟨ds, by simp [synthList, hds], hd⟩
      | .int _ =>
          rw [← pure_ok hstep] at hrest
          obtain ⟨ds, hds, hd⟩ := ih recs0 d hf hrest
          exact ⟨ds, by simp [synthList, hds], hd⟩
      | .str pid =>
          simp only at hstep
          cases hg : assocGet? ctx.policy_map pid with
          | none =>
              rw [hg] at hstep
              rw [← pure_ok hstep] at hrest
              obtain ⟨ds, hds, hd⟩ := ih recs0 d hf hrest
              exact ⟨ds, by simp [synthList, hg, hds], hd⟩
          | some info =>
              rw [hg] at hstep
              obtain ⟨dd, hdd, hca⟩ := exceptBind_ok hstep
              rw [covAppend_of_falsy recs0 dd hf] at hca
              rw [← Except.ok.inj hca] at hrest
              obtain ⟨ds, hds, hd⟩ := synthFold_go_list ctx rest _ d [.dict dd]
                (pyGet_assocSet_self _ _ _) (by simp) hrest
              refine ⟨.dict dd :: ds, ?_, ?_⟩
              · simp [synthList, hg, hdd, hds, Bind.bind, Except.bind,
                  pure, Except.pure]
              · rw [hd, assocSet_assocSet_self]
                simp

theorem synthesizeDetails_char (ctx : Ctx) (recs d : Dict) (items : List PyVal)
    (hcov : ¬pyTruthy (pyGet recs "coverage_details"))
    (happ : pyTruthy (pyGet recs "applicable_policies"))
    (hit : pyIter (pyGet recs "applicable_policies") = .ok items)
    (h : synthesizeDetails ctx recs = .ok d) :
    ∃ ds, synthList ctx items = .ok ds
      ∧ d = (if ds.isEmpty then recs
          else assocSet recs "coverage_details" (.list ds)) := by
  unfold synthesizeDetails at h
  rw [if_pos (by simp [hcov, happ])] at h
  obtain ⟨items2, hit2, hfold⟩ := exceptBind_ok h
  rw [hit] at hit2
  rw [← Except.ok.inj hit2] at hfold
  exact synthFold_go_falsy ctx items recs d hcov hfold

theorem formatIdList_char (ctx : Ctx) (key : String) (recs d : Dict)
    (v : PyVal) (items : List PyVal)
    (hv : pyGet recs key = v) (ht : pyTruthy v) (hit : pyIter v = .ok items)
    (h : formatIdList ctx key recs = .ok d) :
    d = assocSet recs key (.list (fmtIds ctx items)) := by
  unfold formatIdList at h
  dsimp only at h
  rw [hv, if_pos ht] at h
  obtain ⟨items2, hit2, h2⟩ := exceptBind_ok h
  rw [hit] at hit2
  rw [← Except.ok.inj hit2] at h2
  obtain ⟨new, hn, h4⟩ := exceptBind_ok h2
  rw [← pure_ok h4, fmtIdsFold_go ctx items [] new hn]
  simp

theorem formatCoverageDetails_skip (ctx : Ctx) (recs : Dict)
    (h : ¬pyTruthy (pyGet recs "coverage_details")) :
    formatCoverageDetails ctx recs = .ok recs := by
  unfold formatCoverageDetails
  dsimp only
  rw [if_neg h]
  rfl

theorem formatCoverageDetails_char (ctx : Ctx) (recs d : Dict)
    (es : List PyVal)
    (hv : pyGet recs "coverage_details" = .list es) (hne : es ≠ [])
    (h : formatCoverageDetails ctx recs = .ok d) :
    d = assocSet recs "coverage_details"
        (.list (es.map (fmtCovEntry ctx))) := by
  unfold formatCoverageDetails at h
  dsimp only at h
  rw [hv, if_pos (by simp [pyTruthy, hne])] at h
  obtain ⟨items2, hit2, h2⟩ := exceptBind_ok h
  have hit : pyIter (PyVal.list es) = .ok es := rfl
  rw [hit] at hit2
  rw [← Except.ok.inj hit2] at h2
  obtain ⟨new, hn, h4⟩ := exceptBind_ok h2
  rw [← pure_ok h4, fmtCovFold_go ctx es [] new hn]
  simp

theorem synthDetail_fields (pid : String) (info : PolicyInfo) (dd : Dict)
    (h : synthDetail pid info = .ok dd) :
    assocGet? dd "policy_id" = some (.str pid)
    ∧ (∀ k ∈ (["policy_id", "estimated_coverage", "deductible",
        "copay"] : List String), ∃ s, assocGet? dd k = some (.str s)) := by
  unfold synthDetail at h
  by_cases hA : (!info.coverage_areas.isEmpty) = true
  · rw [if_pos hA] at h
    obtain ⟨total, _, h2⟩ := exceptBind_ok h
    have hdd := pure_ok h2
    by_cases hpos : (0 : ℚ) < total
    · rw [if_pos hpos] at hdd
      rw [← hdd]
      refine ⟨by rw [assocGet?_assocSet_ne _ _ _ _ (by decide)]; rfl, ?_⟩
      intro k hk
      simp only [List.mem_cons, List.not_mem_nil, or_false] at hk
      rcases hk with rfl | rfl | rfl | rfl
      · exact ⟨pid, by rw [assocGet?_assocSet_ne _ _ _ _ (by decide)]; rfl⟩
      · exact ⟨formatUSD total, by rw [assocGet?_assocSet_self]⟩
      · exact ⟨if info.deductible ≠ "" then info.deductible
          else "See policy for details",
          by rw [assocGet?_assocSet_ne _ _ _ _ (by decide)]; rfl⟩
      · exact ⟨if info.copayment ≠ "" then info.copayment
          else "See policy for details",
          by rw [assocGet?_assocSet_ne _ _ _ _ (by decide)]; rfl⟩
    · rw [if_neg hpos] at hdd
      rw [← hdd]
      refine ⟨rfl, ?_⟩
      intro k hk
      simp only [List.mem_cons, List.not_mem_nil, or_false] at hk
      rcases hk with rfl | rfl | rfl | rfl
      · exact ⟨pid, rfl⟩
      · exact ⟨"See policy for details", rfl⟩
      · exact ⟨if info.deductible ≠ "" then info.deductible
          else "See policy for details", rfl⟩
      · exact ⟨if info.copayment ≠ "" then info.copayment
          else "See policy for details", rfl⟩
  · rw [if_neg hA] at h
    have hdd := pure_ok h
    rw [← hdd]
    refine ⟨rfl, ?_⟩
    intro k hk
    simp only [List.mem_cons, List.not_mem_nil, or_false] at hk
    rcases hk with rfl | rfl | rfl | rfl
    · exact ⟨pid, rfl⟩
    · exact ⟨"See policy for details", rfl⟩
    · exact ⟨if info.deductible ≠ "" then info.deductible
        else "See policy for details", rfl⟩
    · exact ⟨if info.copayment ≠ "" then info.copayment
        else "See policy for details", rfl⟩

theorem synthList_align (ctx : Ctx) (items : List PyVal) : ∀ ds,
    synthList ctx items = .ok ds →
    ds.length = (fmtIds ctx items).length
    ∧ (∀ pr ∈ (ds.map (fmtCovEntry ctx)).zip (fmtIds ctx items),
        ∃ kvs : Dict, pr.1 = .dict kvs
          ∧ assocGet? kvs "policy_id" = some pr.2
          ∧ ∀ k ∈ (["policy_id", "estimated_coverage", "deductible",
              "copay"] : List String), ∃ s, assocGet? kvs k = some (.str s)) := by
  induction items with
  | nil =>
      intro ds h
      have hds : ([] : List PyVal) = ds := Except.ok.inj h
      rw [← hds]
      simp [fmtIds]
  | cons a rest ih =>
      intro ds h
      match a with
      | .list _ => simp [synthList] at h
      | .dict _ => simp [synthList] at h
      | .none =>
          obtain ⟨h1, h2⟩ := ih ds (by simpa [synthList] using h)
          exact ⟨by simpa [fmtIds] using h1, by simpa [fmtIds] using h2⟩
      | .bool _ =>
          obtain ⟨h1, h2⟩ := ih ds (by simpa [synthList] using h)
          exact ⟨by simpa [fmtIds] using h1, by simpa [fmtIds] using h2⟩
      | .int _ =>
          obtain ⟨h1, h2⟩ := ih ds (by simpa [synthList] using h)
          exact ⟨by simpa [fmtIds] using h1, by simpa [fmtIds] using h2⟩
      | .str pid =>
          rw [show synthList ctx (.str pid :: rest)
            = (match assocGet? ctx.policy_map pid with
              | some info => do
                  let dd ← synthDetail pid info
                  let tail ← synthList ctx rest
                  pure (.dict dd :: tail)
              | Option.none => synthList ctx rest) from rfl] at h
          cases hg : assocGet? ctx.policy_map pid with
          | none =>
              rw [hg] at h
              obtain ⟨h1, h2⟩ := ih ds h
              exact ⟨by simpa [fmtIds, hg] using h1,
                by simpa [fmtIds, hg] using h2⟩
          | some info =>
              rw [hg] at h
              obtain ⟨dd, hdd, h2⟩ := exceptBind_ok h
              obtain ⟨tail, htail, h4⟩ := exceptBind_ok h2
              have hds : PyVal.dict dd :: tail = ds := pure_ok h4
              rw [← hds]
              obtain ⟨hfpid, hfields⟩ := synthDetail_fields pid info dd hdd
              have hgetD : assocGetD dd "policy_id" (.str "") = .str pid := by
                unfold assocGetD
                rw [hfpid]
                rfl
              have hfmt : fmtCovEntry ctx (.dict dd)
                  = .dict (assocSet dd "policy_id"
                      (.str (displayStr ctx pid info))) := by
                simp [fmtCovEntry, hgetD, hg]
              obtain ⟨ih1, ih2⟩ := ih tail htail
              constructor
              · simp [fmtIds, hg, ih1]
              · intro pr hpr
                rw [show fmtIds ctx (.str pid :: rest)
                  = .str (displayStr ctx pid info) :: fmtIds ctx rest from by
                    simp [fmtIds, hg]] at hpr
                rw [List.map_cons, hfmt] at hpr
                rw [List.zip_cons_cons] at hpr
                rcases List.mem_cons.mp hpr with hpr | hpr
                · subst hpr
                  refine ⟨assocSet dd "policy_id"
                      (.str (displayStr ctx pid info)), rfl, ?_, ?_⟩
                  · rw [assocGet?_assocSet_self]
                  · intro k hk
                    simp only [List.mem_cons, List.not_mem_nil, or_false] at hk
                    rcases hk with rfl | rfl | rfl | rfl
                    · exact ⟨displayStr ctx pid info, by rw [assocGet?_assocSet_self]⟩
                    · obtain ⟨s, hs⟩ := hfields "estimated_coverage" (by simp)
                      exact ⟨s, by rw [assocGet?_assocSet_ne _ _ _ _ (by decide)]; exact hs⟩
                    · obtain ⟨s, hs⟩ := hfields "deductible" (by simp)
                      exact ⟨s, by rw [assocGet?_assocSet_ne _ _ _ _ (by decide)]; exact hs⟩
                    · obtain ⟨s, hs⟩ := hfields "copay" (by simp)
                      exact ⟨s, by rw [assocGet?_assocSet_ne _ _ _ _ (by decide)]; exact hs⟩
                · exact ih2 pr hpr

/-- C2.  The spec claims `len(coverage_details) == len(applicable_policies)`
with one fully populated entry per applicable policy.  When the oracle's
raw coverage details are non-empty, the rebuilt list follows the raw
entries instead: two raw entries naming the same policy number survive as
two details while `applicable_policies` has one entry. -/
theorem c2_counterexample :
    (analyzeCore dedupKeepFirst [exP1, exP2]
        [("applicable_policies", .list [.str "pid1"]),
         ("coverage_details", .list
            [.dict [("policy_id", .str "222222")],
             .dict [("policy_id", .str "222222")]])]).map
      (fun d => ((strListOf d "applicable_policies").map List.length,
        match pyGet d "coverage_details" with
        | .list xs => some xs.length
        | _ => Option.none))
      = .ok (some 1, some 2)
    ∧ (1 : Nat) ≠ 2 := by
  exact ⟨rfl, by decide⟩

/-- C2 (amended).  The one-entry-per-applicable-policy invariant holds
only on the synthesis path: when the raw `coverage_details` field is
absent or empty, the final `coverage_details` has exactly one entry per
final `applicable_policies` entry, in the same order, each entry a dict
whose `policy_id` equals the corresponding applicable entry and whose
four fields (`policy_id`, `estimated_coverage`, `deductible`, `copay`)
are all present with string values.  (When raw coverage details survive
repair, the rebuilt list follows the raw entries and the invariant can
fail, as the counterexample shows.) -/
theorem c2_amended (f : List String → List String) (ps : List Policy)
    (recs out : Dict)
    (hcov : ¬pyTruthy (pyGet recs "coverage_details"))
    (hrun : analyzeCore f ps recs = .ok out) :
    ∀ cds aps, pyGet out "coverage_details" = .list cds →
      pyGet out "applicable_policies" = .list aps →
      cds.length = aps.length
      ∧ ∀ pr ∈ cds.zip aps, ∃ kvs : Dict, pr.1 = .dict kvs
          ∧ assocGet? kvs "policy_id" = some pr.2
          ∧ ∀ k ∈ (["policy_id", "estimated_coverage", "deductible",
              "copay"] : List String), ∃ s, assocGet? kvs k = some (.str s) := by
  obtain ⟨pns, r1, r3, r4, r5, r6, r8, r9, r10, r11,
    hext, h1, h3, h4, h5, h6, h8, h9, h10, h11, h12⟩ :=
    analyzeCore_ok_elim f ps recs out hrun
  intro cds aps hcds haps
  have hCA : ("coverage_details" : String) ≠ "applicable_policies" := by decide
  have hAC : ("applicable_policies" : String) ≠ "coverage_details" := by decide
  have hAF : ("applicable_policies" : String) ≠ "filing_order" := by decide
  have hCF : ("coverage_details" : String) ≠ "filing_order" := by decide
  have hCL : ("coverage_details" : String) ≠ "limitations" := by decide
  have hCE : ("coverage_details" : String) ≠ "explanation" := by decide
  have hCP : ("coverage_details" : String) ≠ "policy_numbers" := by decide
  have hAL : ("applicable_policies" : String) ≠ "limitations" := by decide
  have hAE : ("applicable_policies" : String) ≠ "explanation" := by decide
  have hAP : ("applicable_policies" : String) ≠ "policy_numbers" := by decide
  have hc2 : pyGet (applyExplanationFallback pns r1) "coverage_details"
      = pyGet recs "coverage_details" := by
    rw [pyGet_of_shape (applyExplanationFallback_shape pns r1) hCA,
      pyGet_of_shape (updateApplicable_shape f _ recs r1 h1) hCA]
  have hcovF : ¬pyTruthy
      (pyGet (applyExplanationFallback pns r1) "coverage_details") := by
    rw [hc2]; exact hcov
  have hr3 : r3 = applyExplanationFallback pns r1 := by
    have hsk := updateCoverageDetails_skip (buildCtx ps) _ hcovF
    rw [hsk] at h3
    exact (Except.ok.inj h3).symm
  subst hr3
  -- applicable and coverage values from r4 up to r9 are unchanged
  have eA5 : pyGet r5 "applicable_policies" = pyGet r4 "applicable_policies" :=
    pyGet_of_shape (updateFilingOrder_shape _ _ _ h5) hAF
  have eA6 : pyGet r6 "applicable_policies" = pyGet r5 "applicable_policies" :=
    pyGet_of_shape (applyFilingFallback_shape _ _ h6) hAF
  have eA7 : pyGet (applyLimitationsDefault r6) "applicable_policies"
      = pyGet r6 "applicable_policies" :=
    pyGet_of_shape (applyLimitationsDefault_shape r6) hAL
  have eA8 : pyGet r8 "applicable_policies"
      = pyGet (applyLimitationsDefault r6) "applicable_policies" :=
    pyGet_of_shape (updateExplanation_shape _ _ _ h8) hAE
  have eA9 : pyGet r9 "applicable_policies" = pyGet r8 "applicable_policies" :=
    pyGet_of_shape (Or.inr (updatePolicyNumbersKey_shape _ _ _ h9)) hAP
  have eA49 : pyGet r9 "applicable_policies" = pyGet r4 "applicable_policies" := by
    rw [eA9, eA8, eA7, eA6, eA5]
  have eC5 : pyGet r5 "coverage_details" = pyGet r4 "coverage_details" :=
    pyGet_of_shape (updateFilingOrder_shape _ _ _ h5) hCF
  have eC6 : pyGet r6 "coverage_details" = pyGet r5 "coverage_details" :=
    pyGet_of_shape (applyFilingFallback_shape _ _ h6) hCF
  have eC7 : pyGet (applyLimitationsDefault r6) "coverage_details"
      = pyGet r6 "coverage_details" :=
    pyGet_of_shape (applyLimitationsDefault_shape r6) hCL
  have eC8 : pyGet r8 "coverage_details"
      = pyGet (applyLimitationsDefault r6) "coverage_details" :=
    pyGet_of_shape (updateExplanation_shape _ _ _ h8) hCE
  have eC9 : pyGet r9 "coverage_details" = pyGet r8 "coverage_details" :=
    pyGet_of_shape (Or.inr (updatePolicyNumbersKey_shape _ _ _ h9)) hCP
  have eC49 : pyGet r9 "coverage_details" = pyGet r4 "coverage_details" := by
    rw [eC9, eC8, eC7, eC6, eC5]
  by_cases htv : pyTruthy
      (pyGet (applyExplanationFallback pns r1) "applicable_policies")
  · -- synthesis ran: decompose it
    have h4' := h4
    unfold synthesizeDetails at h4'
    rw [if_pos (by
      rw [Bool.and_eq_true]
      constructor
      · simp [hcovF]
      · exact htv)] at h4'
    obtain ⟨items, hit, hfold⟩ := exceptBind_ok h4'
    obtain ⟨ds, hds, hr4⟩ := synthFold_go_falsy (buildCtx ps) items _ r4 hcovF hfold
    obtain ⟨hlen, hzip⟩ := synthList_align (buildCtx ps) items ds hds
    by_cases hde : ds.isEmpty
    · -- nothing synthesized: both final lists are empty
      rw [if_pos hde] at hr4
      subst hr4
      have hfmtid : r10 = assocSet r9 "applicable_policies"
          (.list (fmtIds (buildCtx ps) items)) :=
        formatIdList_char (buildCtx ps) "applicable_policies" r9 r10
          (pyGet (applyExplanationFallback pns r1) "applicable_policies")
          items eA49 htv hit h10
      have hcov10 : ¬pyTruthy (pyGet r10 "coverage_details") := by
        rw [hfmtid, pyGet_assocSet_ne _ _ _ _ hCA, eC49]
        exact hcovF
      have hr11 : r11 = r10 := by
        have hsk := formatCoverageDetails_skip (buildCtx ps) r10 hcov10
        rw [hsk] at h11
        exact (Except.ok.inj h11).symm
      subst hr11
      have eAout : pyGet out "applicable_policies"
          = .list (fmtIds (buildCtx ps) items) := by
        rw [pyGet_of_shape (formatIdList_shape _ _ _ _ h12) hAF, hfmtid,
          pyGet_assocSet_self]
      have eCout : pyGet out "coverage_details"
          = pyGet (applyExplanationFallback pns r1) "coverage_details" := by
        rw [pyGet_of_shape (formatIdList_shape _ _ _ _ h12) hCF, hfmtid,
          pyGet_assocSet_ne _ _ _ _ hCA, eC49]
      have hfmtnil : fmtIds (buildCtx ps) items = [] := by
        have : ds = [] := by simpa using hde
        rw [this] at hlen
        exact List.eq_nil_of_length_eq_zero hlen.symm
      have hapsnil : aps = [] := by
        rw [eAout, hfmtnil] at haps
        exact (PyVal.list.inj haps).symm
      have hcdsnil : cds = [] := by
        rw [eCout] at hcds
        have := hcovF
        rw [hcds] at this
        simpa [pyTruthy] using this
      rw [hapsnil, hcdsnil]
      exact ⟨rfl, by simp⟩
    · -- synthesized list is non-empty
      rw [if_neg hde] at hr4
      have hdsn : ds ≠ [] := by simpa using hde
      have hcov4 : pyGet r4 "coverage_details" = .list ds := by
        rw [hr4, pyGet_assocSet_self]
      have happ4 : pyGet r4 "applicable_policies"
          = pyGet (applyExplanationFallback pns r1) "applicable_policies" := by
        rw [hr4, pyGet_assocSet_ne _ _ _ _ hAC]
      have hfmtid : r10 = assocSet r9 "applicable_policies"
          (.list (fmtIds (buildCtx ps) items)) :=
        formatIdList_char (buildCtx ps) "applicable_policies" r9 r10
          (pyGet (applyExplanationFallback pns r1) "applicable_policies")
          items (eA49.trans happ4) htv hit h10
      have hcov10 : pyGet r10 "coverage_details" = .list ds := by
        rw [hfmtid, pyGet_assocSet_ne _ _ _ _ hCA, eC49, hcov4]
      have hfmtcov : r11 = assocSet r10 "coverage_details"
          (.list (ds.map (fmtCovEntry (buildCtx ps)))) :=
        formatCoverageDetails_char _ r10 r11 ds hcov10 hdsn h11
      have eAout : pyGet out "applicable_policies"
          = .list (fmtIds (buildCtx ps) items) := by
        rw [pyGet_of_shape (formatIdList_shape _ _ _ _ h12) hAF, hfmtcov,
          pyGet_assocSet_ne _ _ _ _ hAC, hfmtid, pyGet_assocSet_self]
      have eCout : pyGet out "coverage_details"
          = .list (ds.map (fmtCovEntry (buildCtx ps))) := by
        rw [pyGet_of_shape (formatIdList_shape _ _ _ _ h12) hCF, hfmtcov,
          pyGet_assocSet_self]
      have hcdseq : cds = ds.map (fmtCovEntry (buildCtx ps)) := by
        rw [eCout] at hcds
        exact (PyVal.list.inj hcds).symm
      have hapseq : aps = fmtIds (buildCtx ps) items := by
        rw [eAout] at haps
        exact (PyVal.list.inj haps).symm
      subst hcdseq
      subst hapseq
      exact ⟨by simpa using hlen, hzip⟩
  · -- synthesis skipped because no applicable policies
    have hr4 : r4 = applyExplanationFallback pns r1 := by
      have hsk := synthesizeDetails_skip (buildCtx ps) _ (by
        intro hand
        rw [Bool.and_eq_true] at hand
        exact htv hand.2)
      rw [hsk] at h4
      exact (Except.ok.inj h4).symm
    subst hr4
    have happ9 : ¬pyTruthy (pyGet r9 "applicable_policies") := by
      rw [eA49]
      exact htv
    have hcov9 : ¬pyTruthy (pyGet r9 "coverage_details") := by
      rw [eC49]
      exact hcovF
    have hr10 : r10 = r9 := by
      have hsk := formatIdList_skip (buildCtx ps) "applicable_policies" r9 happ9
      rw [hsk] at h10
      exact (Except.ok.inj h10).symm
    have hcov10 : ¬pyTruthy (pyGet r10 "coverage_details") := by
      rw [hr10]
      exact hcov9
    have hr11 : r11 = r10 := by
      have hsk := formatCoverageDetails_skip (buildCtx ps) r10 hcov10
      rw [hsk] at h11
      exact (Except.ok.inj h11).symm
    have eAout : pyGet out "applicable_policies"
        = pyGet r9 "applicable_policies" := by
      rw [pyGet_of_shape (formatIdList_shape _ _ _ _ h12) hAF, hr11, hr10]
    have eCout : pyGet out "coverage_details" = pyGet r9 "coverage_details" := by
      rw [pyGet_of_shape (formatIdList_shape _ _ _ _ h12) hCF, hr11, hr10]
    have hapsnil : aps = [] := by
      have := happ9
      rw [eAout] at haps
      rw [haps] at this
      simpa [pyTruthy] using this
    have hcdsnil : cds = [] := by
      have := hcov9
      rw [eCout] at hcds
      rw [hcds] at this
      simpa [pyTruthy] using this
    rw [hapsnil, hcdsnil]
    exact ⟨rfl, by simp⟩

/-- C2 witness: the amended invariant applied to a concrete run whose
raw coverage details are absent. -/
theorem c2_amended_witness :
    ([PyVal.dict
        [("policy_id", .str "Policy 123456 ()..."),
         ("estimated_coverage", .str "See policy for details"),
         ("deductible", .str "See policy for details"),
         ("copay", .str "See policy for details")]] : List PyVal).length
      = ([PyVal.str "Policy 123456 ()..."] : List PyVal).length
    ∧ ∀ pr ∈ ([PyVal.dict
        [("policy_id", .str "Policy 123456 ()..."),
         ("estimated_coverage", .str "See policy for details"),
         ("deductible", .str "See policy for details"),
         ("copay", .str "See policy for details")]] : List PyVal).zip
          [PyVal.str "Policy 123456 ()..."],
        ∃ kvs : Dict, pr.1 = .dict kvs
          ∧ assocGet? kvs "policy_id" = some pr.2
          ∧ ∀ k ∈ (["policy_id", "estimated_coverage", "deductible",
              "copay"] : List String), ∃ s, assocGet? kvs k = some (.str s) :=
  c2_amended dedupKeepFirst [exP1]
    [("applicable_policies", .list [.str "pid1"])] outC3
    (by simp [pyGet, assocGetD, assocGet?, pyTruthy]) rfl
    [PyVal.dict
      [("policy_id", .str "Policy 123456 ()..."),
       ("estimated_coverage", .str "See policy for details"),
       ("deductible", .str "See policy for details"),
       ("copay", .str "See policy for details")]]
    [PyVal.str "Policy 123456 ()..."] rfl rfl

/-- A string value. -/
def wtStr : PyVal → Bool
  | .str _ => true
  | _ => false

/-- A list whose elements are all strings (the documented type of
`applicable_policies` and `filing_order`). -/
def wtTokensB : PyVal → Bool
  | .list xs => xs.all wtStr
  | _ => false

/-- A dict whose `policy_id`, when present, is a string (the documented
shape of one coverage detail). -/
def wtDetailB : PyVal → Bool
  | .dict kvs =>
      (match assocGet? kvs "policy_id" with
      | some (.str _) => true
      | some _ => false
      | Option.none => true)
  | _ => false

/-- A list of well-shaped coverage details. -/
def wtDetailsB : PyVal → Bool
  | .list xs => xs.all wtDetailB
  | _ => false

/-- The key is absent, or its value passes the checker. -/
def wtKeyB (recs : Dict) (k : String) (p : PyVal → Bool) : Bool :=
  match assocGet? recs k with
  | some v => p v
  | Option.none => true

/-- Documented field types of the oracle payload: token lists are lists
of strings, coverage details are a list of dicts with string (or absent)
`policy_id`, the explanation is a string; absent keys are fine. -/
def wtRecB (recs : Dict) : Bool :=
  wtKeyB recs "applicable_policies" wtTokensB
  && wtKeyB recs "filing_order" wtTokensB
  && wtKeyB recs "coverage_details" wtDetailsB
  && wtKeyB recs "explanation" wtStr

/-- Every coverage-area limit of the policy parses. -/
def wfPolicyB (p : Policy) : Bool := allLimitsParse p.coverage_areas

theorem wtKeyB_set_same (recs : Dict) (k : String) (p : PyVal → Bool)
    (v : PyVal) (hv : p v = true) :
    wtKeyB (assocSet recs k v) k p = true := by
  unfold wtKeyB
  rw [assocGet?_assocSet_self]
  exact hv

theorem wtKeyB_set_other (recs : Dict) (k k' : String) (p : PyVal → Bool)
    (v : PyVal) (hk : k' ≠ k) :
    wtKeyB (assocSet recs k v) k' p = wtKeyB recs k' p := by
  unfold wtKeyB
  rw [assocGet?_assocSet_ne _ _ _ _ hk]

theorem assocHas_assocSet (kvs : List (String × α)) (k k2 : String) (v : α)
    (h : assocHas kvs k2 = true) : assocHas (assocSet kvs k v) k2 = true := by
  by_cases he : k2 = k
  · subst he
    unfold assocHas
    rw [assocGet?_assocSet_self]
    rfl
  · unfold assocHas at h ⊢
    rw [assocGet?_assocSet_ne _ _ _ _ he]
    exact h

theorem numberMap_sub_go (ps : List Policy) :
    ∀ (acc : List (String × PolicyInfo) × List (String × String) × List (String × String)),
      (∀ n pid, assocGet? acc.2.1 n = some pid → assocHas acc.1 pid = true) →
      ∀ n pid, assocGet? (ps.foldl mapsStep acc).2.1 n = some pid →
        assocHas (ps.foldl mapsStep acc).1 pid = true := by
  induction ps with
  | nil => intro acc hinv n pid h; exact hinv n pid h
  | cons p rest ih =>
      intro acc hinv n pid h
      rw [List.foldl_cons] at h ⊢
      refine ih (mapsStep acc p) ?_ n pid h
      intro n2 pid2 h2
      have hpm : (mapsStep acc p).1 = assocSet acc.1 p._id (mkInfo p) := by
        by_cases hn : effectiveNumber p = "" <;> simp [mapsStep, hn]
      by_cases hn : effectiveNumber p = ""
      · have hnm : (mapsStep acc p).2.1 = acc.2.1 := by simp [mapsStep, hn]
        rw [hnm] at h2
        rw [hpm]
        exact assocHas_assocSet _ _ _ _ (hinv n2 pid2 h2)
      · have hnm : (mapsStep acc p).2.1
            = assocSet acc.2.1 (effectiveNumber p) p._id := by
          simp [mapsStep, hn]
        rw [hnm] at h2
        rw [hpm]
        by_cases he : n2 = effectiveNumber p
        · subst he
          rw [assocGet?_assocSet_self] at h2
          rw [← Option.some.inj h2]
          unfold assocHas
          rw [assocGet?_assocSet_self]
          rfl
        · rw [assocGet?_assocSet_ne _ _ _ _ he] at h2
          exact assocHas_assocSet _ _ _ _ (hinv n2 pid2 h2)

/-- Every `policy_number_map` value is a `policy_map` key. -/
theorem numberMap_sub (ps : List Policy) (n pid : String)
    (h : assocGet? (buildCtx ps).policy_number_map n = some pid) :
    assocHas (buildCtx ps).policy_map pid = true :=
  numberMap_sub_go ps ([], [], [])
    (fun n2 pid2 h2 => by simp [assocGet?] at h2) n pid h

/-- Under well-formed input policies, every `policy_map` record has
parseable coverage limits. -/
theorem infoWf (ps : List Policy) (pid : String) (info : PolicyInfo)
    (hwf : ps.all wfPolicyB = true)
    (h : assocGet? (buildCtx ps).policy_map pid = some info) :
    allLimitsParse info.coverage_areas = true := by
  obtain ⟨p, hp, _, hpe⟩ := policyMap_mem ps pid info h
  have := List.all_eq_true.mp hwf p hp
  rw [hpe]
  exact this

theorem resolveAll_ok_of_strs (ctx : Ctx) (toks : List PyVal)
    (h : ∀ t ∈ toks, wtStr t = true) :
    ∃ r, resolveAll ctx toks = .ok r := by
  unfold resolveAll
  obtain ⟨r, hr, -⟩ := foldlM_ok_inv (fun acc t => do
      let r ← resolveTokenDyn ctx t
      pure (match r with
        | some pid => acc ++ [pid]
        | Option.none => acc)) (fun _ => True) toks
    (fun a ha b _ => by
      match a with
      | .str s =>
          exact ⟨_, rfl, trivial⟩
      | .none => exact absurd (h _ ha) (by simp [wtStr])
      | .bool _ => exact absurd (h _ ha) (by simp [wtStr])
      | .int _ => exact absurd (h _ ha) (by simp [wtStr])
      | .list _ => exact absurd (h _ ha) (by simp [wtStr])
      | .dict _ => exact absurd (h _ ha) (by simp [wtStr])) [] trivial
  exact ⟨r, hr⟩

theorem fillDetail_policy_id (info : PolicyInfo) (kvs kvs2 : Dict)
    (h : fillDetail info kvs = .ok kvs2) :
    assocGet? kvs2 "policy_id" = assocGet? kvs "policy_id" := by
  have step2 : ∀ (z : Dict) (k : String) (v : PyVal) (C : Prop) (inst : Decidable C),
      k ≠ "policy_id" →
      assocGet? (if C then assocSet z k v else z) "policy_id"
        = assocGet? z "policy_id" := by
    intro z k v C inst hk
    split
    · rw [assocGet?_assocSet_ne _ _ _ _ (fun hh => hk hh.symm)]
    · rfl
  unfold fillDetail at h
  dsimp only at h
  split at h
  · obtain ⟨kvs1, h1, h2⟩ := exceptBind_ok h
    have hk1 : assocGet? kvs1 "policy_id" = assocGet? kvs "policy_id" := by
      revert h1
      split
      · intro h1
        obtain ⟨total, _, h3⟩ := exceptBind_ok h1
        rw [← pure_ok h3, assocGet?_assocSet_ne _ _ _ _ (by decide)]
      · intro h1
        rw [← pure_ok h1]
    rw [← pure_ok h2]
    rw [step2 _ "copay" _ _ _ (by decide)]
    rw [step2 _ "deductible" _ _ _ (by decide)]
    exact hk1
  · obtain ⟨kvs1, h1, h2⟩ := exceptBind_ok h
    have hk1 : assocGet? kvs1 "policy_id" = assocGet? kvs "policy_id" := by
      rw [← pure_ok h1]
    rw [← pure_ok h2]
    rw [step2 _ "copay" _ _ _ (by decide)]
    rw [step2 _ "deductible" _ _ _ (by decide)]
    exact hk1


/-- Rewriting a successful computation under a monadic bind. -/
theorem bind_ok_rw {α β : Type} {e : Except PyErr α} {x : α}
    {f : α → Except PyErr β} (h : e = .ok x) : (e >>= f) = f x := by
  rw [h]
  rfl

/-- A well-typed string value is a `.str`. -/
theorem wtStr_elim (v : PyVal) (h : wtStr v = true) : ∃ s, v = .str s := by
  match v with
  | .str s => exact ⟨s, rfl⟩
  | .none => exact absurd h (by simp [wtStr])
  | .bool b => exact absurd h (by simp [wtStr])
  | .int n => exact absurd h (by simp [wtStr])
  | .list xs => exact absurd h (by simp [wtStr])
  | .dict kvs => exact absurd h (by simp [wtStr])

/-- A well-typed token list is a list of strings. -/
theorem wtTokensB_elim (v : PyVal) (h : wtTokensB v = true) :
    ∃ xs, v = .list xs ∧ ∀ t ∈ xs, wtStr t = true := by
  match v with
  | .list xs => exact ⟨xs, rfl, List.all_eq_true.mp h⟩
  | .none => exact absurd h (by simp [wtTokensB])
  | .bool b => exact absurd h (by simp [wtTokensB])
  | .int n => exact absurd h (by simp [wtTokensB])
  | .str s => exact absurd h (by simp [wtTokensB])
  | .dict kvs => exact absurd h (by simp [wtTokensB])

/-- A well-typed coverage-details value is a list of well-shaped dicts. -/
theorem wtDetailsB_elim (v : PyVal) (h : wtDetailsB v = true) :
    ∃ xs, v = .list xs ∧ ∀ t ∈ xs, wtDetailB t = true := by
  match v with
  | .list xs => exact ⟨xs, rfl, List.all_eq_true.mp h⟩
  | .none => exact absurd h (by simp [wtDetailsB])
  | .bool b => exact absurd h (by simp [wtDetailsB])
  | .int n => exact absurd h (by simp [wtDetailsB])
  | .str s => exact absurd h (by simp [wtDetailsB])
  | .dict kvs => exact absurd h (by simp [wtDetailsB])

/-- A well-shaped coverage detail is a dict whose
`get("policy_id", "")` is a string. -/
theorem wtDetailB_elim (d : PyVal) (h : wtDetailB d = true) :
    ∃ kvs s, d = .dict kvs
      ∧ assocGetD kvs "policy_id" (.str "") = .str s := by
  match d with
  | .dict kvs =>
      simp only [wtDetailB] at h
      cases hg : assocGet? kvs "policy_id" with
      | none => exact ⟨kvs, "", rfl, by unfold assocGetD; rw [hg]; rfl⟩
      | some w =>
          rw [hg] at h
          match w with
          | .str s => exact ⟨kvs, s, rfl, by unfold assocGetD; rw [hg]; rfl⟩
          | .none => simp at h
          | .bool b => simp at h
          | .int n => simp at h
          | .list xs => simp at h
          | .dict kvs2 => simp at h
  | .none => exact absurd h (by simp [wtDetailB])
  | .bool b => exact absurd h (by simp [wtDetailB])
  | .int n => exact absurd h (by simp [wtDetailB])
  | .str s => exact absurd h (by simp [wtDetailB])
  | .list xs => exact absurd h (by simp [wtDetailB])

/-- Overwriting `policy_id` with a string keeps a detail well shaped. -/
theorem wtDetailB_setPid (kvs : Dict) (X : String) :
    wtDetailB (.dict (assocSet kvs "policy_id" (.str X))) = true := by
  simp only [wtDetailB]
  rw [assocGet?_assocSet_self]

/-- A list of string values is a well-typed token list. -/
theorem wtTokensB_map_str (l : List String) :
    wtTokensB (.list (l.map PyVal.str)) = true := by
  simp only [wtTokensB]
  rw [List.all_eq_true]
  intro x hx
  obtain ⟨s, -, rfl⟩ := List.mem_map.mp hx
  rfl

/-- Reading a `wtKeyB`-checked key gives `None` or a checked value. -/
theorem wtKeyB_pyGet (recs : Dict) (k : String) (p : PyVal → Bool)
    (h : wtKeyB recs k p = true) :
    pyGet recs k = .none ∨ p (pyGet recs k) = true := by
  unfold wtKeyB at h
  unfold pyGet assocGetD
  cases hg : assocGet? recs k with
  | none => exact Or.inl rfl
  | some v =>
      rw [hg] at h
      exact Or.inr h

/-- A truthy `wtKeyB`-checked key holds a checked value. -/
theorem wtKeyB_truthy (recs : Dict) (k : String) (p : PyVal → Bool)
    (h : wtKeyB recs k p = true) (ht : pyTruthy (pyGet recs k) = true) :
    p (pyGet recs k) = true := by
  rcases wtKeyB_pyGet recs k p h with hn | hp
  · rw [hn] at ht
    exact absurd ht (by decide)
  · exact hp

/-- The four field checks of `wtRecB`, separated. -/
theorem wtRecB_parts (recs : Dict) (h : wtRecB recs = true) :
    wtKeyB recs "applicable_policies" wtTokensB = true
    ∧ wtKeyB recs "filing_order" wtTokensB = true
    ∧ wtKeyB recs "coverage_details" wtDetailsB = true
    ∧ wtKeyB recs "explanation" wtStr = true := by
  unfold wtRecB at h
  simp only [Bool.and_eq_true] at h
  exact ⟨h.1.1.1, h.1.1.2, h.1.2, h.2⟩

/-- Rebuilding `wtRecB` from its four field checks. -/
theorem wtRecB_intro (recs : Dict)
    (h1 : wtKeyB recs "applicable_policies" wtTokensB = true)
    (h2 : wtKeyB recs "filing_order" wtTokensB = true)
    (h3 : wtKeyB recs "coverage_details" wtDetailsB = true)
    (h4 : wtKeyB recs "explanation" wtStr = true) :
    wtRecB recs = true := by
  unfold wtRecB
  rw [h1, h2, h3, h4]
  rfl

/-- Writing a well-typed token list to `applicable_policies` preserves
well-typedness. -/
theorem wtRecB_set_ap (recs : Dict) (v : PyVal) (h : wtRecB recs = true)
    (hv : wtTokensB v = true) :
    wtRecB (assocSet recs "applicable_policies" v) = true := by
  obtain ⟨h1, h2, h3, h4⟩ := wtRecB_parts recs h
  refine wtRecB_intro _ ?_ ?_ ?_ ?_
  · exact wtKeyB_set_same recs "applicable_policies" wtTokensB v hv
  · rw [wtKeyB_set_other recs "applicable_policies" "filing_order"
      wtTokensB v (by decide)]
    exact h2
  · rw [wtKeyB_set_other recs "applicable_policies" "coverage_details"
      wtDetailsB v (by decide)]
    exact h3
  · rw [wtKeyB_set_other recs "applicable_policies" "explanation"
      wtStr v (by decide)]
    exact h4

/-- Writing a well-typed token list to `filing_order` preserves
well-typedness. -/
theorem wtRecB_set_fo (recs : Dict) (v : PyVal) (h : wtRecB recs = true)
    (hv : wtTokensB v = true) :
    wtRecB (assocSet recs "filing_order" v) = true := by
  obtain ⟨h1, h2, h3, h4⟩ := wtRecB_parts recs h
  refine wtRecB_intro _ ?_ ?_ ?_ ?_
  · rw [wtKeyB_set_other recs "filing_order" "applicable_policies"
      wtTokensB v (by decide)]
    exact h1
  · exact wtKeyB_set_same recs "filing_order" wtTokensB v hv
  · rw [wtKeyB_set_other recs "filing_order" "coverage_details"
      wtDetailsB v (by decide)]
    exact h3
  · rw [wtKeyB_set_other recs "filing_order" "explanation"
      wtStr v (by decide)]
    exact h4

/-- Writing a well-typed details list to `coverage_details` preserves
well-typedness. -/
theorem wtRecB_set_cd (recs : Dict) (v : PyVal) (h : wtRecB recs = true)
    (hv : wtDetailsB v = true) :
    wtRecB (assocSet recs "coverage_details" v) = true := by
  obtain ⟨h1, h2, h3, h4⟩ := wtRecB_parts recs h
  refine wtRecB_intro _ ?_ ?_ ?_ ?_
  · rw [wtKeyB_set_other recs "coverage_details" "applicable_policies"
      wtTokensB v (by decide)]
    exact h1
  · rw [wtKeyB_set_other recs "coverage_details" "filing_order"
      wtTokensB v (by decide)]
    exact h2
  · exact wtKeyB_set_same recs "coverage_details" wtDetailsB v hv
  · rw [wtKeyB_set_other recs "coverage_details" "explanation"
      wtStr v (by decide)]
    exact h4

/-- Writing a string to `explanation` preserves well-typedness. -/
theorem wtRecB_set_ex (recs : Dict) (v : PyVal) (h : wtRecB recs = true)
    (hv : wtStr v = true) :
    wtRecB (assocSet recs "explanation" v) = true := by
  obtain ⟨h1, h2, h3, h4⟩ := wtRecB_parts recs h
  refine wtRecB_intro _ ?_ ?_ ?_ ?_
  · rw [wtKeyB_set_other recs "explanation" "applicable_policies"
      wtTokensB v (by decide)]
    exact h1
  · rw [wtKeyB_set_other recs "explanation" "filing_order"
      wtTokensB v (by decide)]
    exact h2
  · rw [wtKeyB_set_other recs "explanation" "coverage_details"
      wtDetailsB v (by decide)]
    exact h3
  · exact wtKeyB_set_same recs "explanation" wtStr v hv

/-- Writing any other key preserves well-typedness. -/
theorem wtRecB_set_other (recs : Dict) (k : String) (v : PyVal)
    (h : wtRecB recs = true)
    (n1 : "applicable_policies" ≠ k) (n2 : "filing_order" ≠ k)
    (n3 : "coverage_details" ≠ k) (n4 : "explanation" ≠ k) :
    wtRecB (assocSet recs k v) = true := by
  obtain ⟨h1, h2, h3, h4⟩ := wtRecB_parts recs h
  refine wtRecB_intro _ ?_ ?_ ?_ ?_
  · rw [wtKeyB_set_other recs k "applicable_policies" wtTokensB v n1]
    exact h1
  · rw [wtKeyB_set_other recs k "filing_order" wtTokensB v n2]
    exact h2
  · rw [wtKeyB_set_other recs k "coverage_details" wtDetailsB v n3]
    exact h3
  · rw [wtKeyB_set_other recs k "explanation" wtStr v n4]
    exact h4

/-- The explanation fallback writes only a list of strings, so it
preserves well-typedness. -/
theorem applyExplanationFallback_wt (pns : List (String × String))
    (recs : Dict) (h : wtRecB recs = true) :
    wtRecB (applyExplanationFallback pns recs) = true := by
  unfold applyExplanationFallback
  split
  · refine wtRecB_set_ap recs _ h ?_
    simp only [wtTokensB]
    rw [List.all_eq_true]
    intro x hx
    obtain ⟨kv, -, rfl⟩ := List.mem_map.mp hx
    rfl
  · exact h

/-- The limitations default writes only the `limitations` key, so it
preserves well-typedness. -/
theorem applyLimitationsDefault_wt (recs : Dict) (h : wtRecB recs = true) :
    wtRecB (applyLimitationsDefault recs) = true := by
  unfold applyLimitationsDefault
  split
  · exact wtRecB_set_other recs "limitations" _ h
      (by decide) (by decide) (by decide) (by decide)
  · exact h

/-- Policy-number extraction succeeds on a well-typed payload (the
explanation is absent, falsy, or a string). -/
theorem extractPolicyNumbers_ok (ctx : Ctx) (recs : Dict)
    (h : wtRecB recs = true) :
    ∃ pns, extractPolicyNumbers ctx (pyGet recs "explanation") = .ok pns := by
  rcases wtKeyB_pyGet recs "explanation" wtStr (wtRecB_parts recs h).2.2.2
    with hn | hp
  · refine ⟨[], ?_⟩
    rw [hn]
    rfl
  · obtain ⟨s, hs⟩ := wtStr_elim _ hp
    rw [hs]
    by_cases ht : pyTruthy (PyVal.str s) = true
    · exact ⟨_, by unfold extractPolicyNumbers; rw [if_pos ht]⟩
    · refine ⟨[], ?_⟩
      unfold extractPolicyNumbers
      rw [if_neg ht]

/-- The applicable-policies rewrite succeeds on a well-typed payload and
preserves well-typedness. -/
theorem updateApplicable_ok (f : List String → List String) (ctx : Ctx)
    (recs : Dict) (h : wtRecB recs = true) :
    ∃ r2, updateApplicable f ctx recs = .ok r2 ∧ wtRecB r2 = true := by
  by_cases ht : pyTruthy (pyGet recs "applicable_policies") = true
  · have hp := wtKeyB_truthy recs "applicable_policies" wtTokensB
      (wtRecB_parts recs h).1 ht
    obtain ⟨xs, hxs, hall⟩ := wtTokensB_elim _ hp
    obtain ⟨r, hr⟩ := resolveAll_ok_of_strs ctx xs hall
    exact ⟨_, updateApplicable_char f ctx recs xs r hxs (hxs ▸ ht) hr,
      wtRecB_set_ap recs _ h (wtTokensB_map_str _)⟩
  · exact ⟨recs, updateApplicable_skip f ctx recs ht, h⟩

/-- Repairing one well-shaped raw coverage detail succeeds against the
maps built from well-formed policies, and any appended entry is again
well shaped. -/
theorem repairDetail_okWt (ps : List Policy) (d : PyVal)
    (hwf : ps.all wfPolicyB = true) (hd : wtDetailB d = true) :
    ∃ r, repairDetail (buildCtx ps) d = .ok r
      ∧ ∀ x, r = some x → wtDetailB x = true := by
  obtain ⟨kvs, s, rfl, hs⟩ := wtDetailB_elim d hd
  cases hm : assocGet? (buildCtx ps).policy_map s with
  | some info =>
      exact ⟨Option.none,
        repairDetail_exactId_drop (buildCtx ps) kvs s info hs hm
          (infoWf ps s info hwf hm),
        fun x hx => by cases hx⟩
  | none =>
      cases hn : assocGet? (buildCtx ps).policy_number_map s with
      | some aid =>
          have hhas := numberMap_sub ps s aid hn
          have hex : ∃ i, assocGet? (buildCtx ps).policy_map aid = some i := by
            unfold assocHas at hhas
            cases hg : assocGet? (buildCtx ps).policy_map aid with
            | none =>
                rw [hg] at hhas
                exact absurd hhas (by decide)
            | some i => exact ⟨i, rfl⟩
          obtain ⟨info, hi⟩ := hex
          obtain ⟨kvs2, h2⟩ := fillDetail_ok info
            (assocSet kvs "policy_id" (.str aid)) (infoWf ps aid info hwf hi)
          refine ⟨some (.dict kvs2), ?_, ?_⟩
          · unfold repairDetail
            simp only [hs, hm, hn, hi]
            change (fillDetail info (assocSet kvs "policy_id" (PyVal.str aid))
                >>= fun kvs3 => pure (some (PyVal.dict kvs3)))
              = Except.ok (some (PyVal.dict kvs2))
            exact (bind_ok_rw h2).trans rfl
          · intro x hx
            rw [← Option.some.inj hx]
            have hpid : assocGet? kvs2 "policy_id" = some (PyVal.str aid) := by
              rw [fillDetail_policy_id info _ kvs2 h2, assocGet?_assocSet_self]
            simp only [wtDetailB, hpid]
      | none =>
          unfold repairDetail
          simp only [hs, hm, hn]
          by_cases hh : (strContains (strLower s) "health"
              && assocHas (buildCtx ps).policy_type_map "health") = true
          · rw [if_pos hh]
            exact ⟨_, rfl, fun x hx => by
              rw [← Option.some.inj hx]
              exact wtDetailB_setPid kvs _⟩
          · rw [if_neg hh]
            by_cases ha2 : (strContains (strLower s) "auto"
                && assocHas (buildCtx ps).policy_type_map "auto") = true
            · rw [if_pos ha2]
              exact ⟨_, rfl, fun x hx => by
                rw [← Option.some.inj hx]
                exact wtDetailB_setPid kvs _⟩
            · rw [if_neg ha2]
              by_cases hh2 : (strContains (strLower s) "home"
                  && assocHas (buildCtx ps).policy_type_map "home") = true
              · rw [if_pos hh2]
                exact ⟨_, rfl, fun x hx => by
                  rw [← Option.some.inj hx]
                  exact wtDetailB_setPid kvs _⟩
              · rw [if_neg hh2]
                exact ⟨Option.none, rfl, fun x hx => by cases hx⟩

/-- The coverage-details repair succeeds on a well-typed payload against
well-formed policies and preserves well-typedness. -/
theorem updateCoverageDetails_ok (ps : List Policy) (recs : Dict)
    (hwf : ps.all wfPolicyB = true) (h : wtRecB recs = true) :
    ∃ r2, updateCoverageDetails (buildCtx ps) recs = .ok r2
      ∧ wtRecB r2 = true := by
  by_cases ht : pyTruthy (pyGet recs "coverage_details") = true
  · have hp := wtKeyB_truthy recs "coverage_details" wtDetailsB
      (wtRecB_parts recs h).2.2.1 ht
    obtain ⟨ds, hds, hall⟩ := wtDetailsB_elim _ hp
    obtain ⟨actual, hfold, hq⟩ := foldlM_ok_inv
      (fun (acc : List PyVal) it => do
        let r ← repairDetail (buildCtx ps) it
        pure (match r with
          | some d => acc ++ [d]
          | Option.none => acc))
      (fun acc => ∀ x ∈ acc, wtDetailB x = true) ds
      (fun a ha b hb => by
        obtain ⟨r, hr, hrwt⟩ := repairDetail_okWt ps a hwf (hall a ha)
        cases r with
        | none =>
            refine ⟨b, ?_, hb⟩
            change (repairDetail (buildCtx ps) a >>= fun r2 =>
              pure (match r2 with
                | some d => b ++ [d]
                | Option.none => b)) = Except.ok b
            exact (bind_ok_rw hr).trans rfl
        | some dd =>
            refine ⟨b ++ [dd], ?_, ?_⟩
            · change (repairDetail (buildCtx ps) a >>= fun r2 =>
                pure (match r2 with
                  | some d => b ++ [d]
                  | Option.none => b)) = Except.ok (b ++ [dd])
              exact (bind_ok_rw hr).trans rfl
            · intro x hx
              rcases List.mem_append.mp hx with hx2 | hx2
              · exact hb x hx2
              · rw [List.mem_singleton.mp hx2]
                exact hrwt dd rfl)
      [] (fun x hx => by cases hx)
    refine ⟨assocSet recs "coverage_details" (.list actual), ?_, ?_⟩
    · unfold updateCoverageDetails
      dsimp only
      rw [hds, if_pos (hds ▸ ht)]
      change ((ds.foldlM (fun (acc : List PyVal) it => do
          let r ← repairDetail (buildCtx ps) it
          pure (match r with
            | some d => acc ++ [d]
            | Option.none => acc)) ([] : List PyVal)) >>= fun actual2 =>
        pure (assocSet recs "coverage_details" (.list actual2)))
        = Except.ok (assocSet recs "coverage_details" (.list actual))
      exact (bind_ok_rw hfold).trans rfl
    · refine wtRecB_set_cd recs _ h ?_
      simp only [wtDetailsB]
      rw [List.all_eq_true]
      exact hq
  · exact ⟨recs, updateCoverageDetails_skip _ recs ht, h⟩

/-- Synthesizing one defaulted detail succeeds when the policy limits
parse. -/
theorem synthDetail_ok (pid : String) (info : PolicyInfo)
    (hLP : allLimitsParse info.coverage_areas = true) :
    ∃ dd, synthDetail pid info = .ok dd := by
  have hsum : coverageSum info.coverage_areas
      = .ok (coverageSumSpec info.coverage_areas) :=
    (coverageSum_go info.coverage_areas 0).1 hLP
  unfold synthDetail
  dsimp only
  by_cases hA : (!info.coverage_areas.isEmpty) = true
  · rw [if_pos hA]
    exact ⟨_, (bind_ok_rw hsum).trans rfl⟩
  · rw [if_neg hA]
    exact ⟨_, rfl⟩

/-- One synthesis-loop iteration on a string token succeeds and
preserves well-typedness. -/
theorem synthesizeStep_okWt (ps : List Policy) (recs : Dict) (it : PyVal)
    (hwf : ps.all wfPolicyB = true) (h : wtRecB recs = true)
    (hit : wtStr it = true) :
    ∃ r, synthesizeStep (buildCtx ps) recs it = .ok r ∧ wtRecB r = true := by
  obtain ⟨pid, rfl⟩ := wtStr_elim it hit
  simp only [synthesizeStep]
  cases hg : assocGet? (buildCtx ps).policy_map pid with
  | none => exact ⟨recs, rfl, h⟩
  | some info =>
      obtain ⟨dd, hdd⟩ := synthDetail_ok pid info (infoWf ps pid info hwf hg)
      have hfields := synthDetail_fields pid info dd hdd
      have hcd : ∃ r, covAppend recs dd = .ok r ∧ wtRecB r = true := by
        rcases wtKeyB_pyGet recs "coverage_details" wtDetailsB
          (wtRecB_parts recs h).2.2.1 with hn | hp2
        · have hfalsy : ¬pyTruthy (pyGet recs "coverage_details") = true := by
            rw [hn]
            decide
          refine ⟨_, covAppend_of_falsy recs dd hfalsy, ?_⟩
          refine wtRecB_set_cd recs _ h ?_
          simp only [wtDetailsB, List.all_cons, List.all_nil, Bool.and_true]
          simp only [wtDetailB, hfields.1]
        · obtain ⟨ds0, hds0, hall0⟩ := wtDetailsB_elim _ hp2
          refine ⟨_, covAppend_of_list recs dd ds0 hds0, ?_⟩
          refine wtRecB_set_cd recs _ h ?_
          simp only [wtDetailsB]
          rw [List.all_eq_true]
          intro x hx
          rcases List.mem_append.mp hx with hx2 | hx2
          · exact hall0 x hx2
          · rw [List.mem_singleton.mp hx2]
            simp only [wtDetailB, hfields.1]
      obtain ⟨r, hr, hrwt⟩ := hcd
      refine ⟨r, ?_, hrwt⟩
      exact (bind_ok_rw hdd).trans hr

/-- The synthesis pass succeeds on a well-typed payload against
well-formed policies and preserves well-typedness. -/
theorem synthesizeDetails_ok (ps : List Policy) (recs : Dict)
    (hwf : ps.all wfPolicyB = true) (h : wtRecB recs = true) :
    ∃ r2, synthesizeDetails (buildCtx ps) recs = .ok r2
      ∧ wtRecB r2 = true := by
  by_cases hc : (¬pyTruthy (pyGet recs "coverage_details")
      && pyTruthy (pyGet recs "applicable_policies")) = true
  · have hc2 := hc
    rw [Bool.and_eq_true] at hc2
    have happ : pyTruthy (pyGet recs "applicable_policies") = true := hc2.2
    have hp := wtKeyB_truthy recs "applicable_policies" wtTokensB
      (wtRecB_parts recs h).1 happ
    obtain ⟨xs, hxs, hall⟩ := wtTokensB_elim _ hp
    obtain ⟨d, hfold, hq⟩ := foldlM_ok_inv (synthesizeStep (buildCtx ps))
      (fun r => wtRecB r = true) xs
      (fun a ha b hb => synthesizeStep_okWt ps b a hwf hb (hall a ha))
      recs h
    refine ⟨d, ?_, hq⟩
    unfold synthesizeDetails
    rw [if_pos hc, hxs]
    change (xs.foldlM (synthesizeStep (buildCtx ps)) recs) = Except.ok d
    exact hfold
  · exact ⟨recs, synthesizeDetails_skip _ recs hc, h⟩

/-- The filing-order rewrite succeeds on a well-typed payload and
preserves well-typedness. -/
theorem updateFilingOrder_ok (ctx : Ctx) (recs : Dict)
    (h : wtRecB recs = true) :
    ∃ r2, updateFilingOrder ctx recs = .ok r2 ∧ wtRecB r2 = true := by
  by_cases ht : pyTruthy (pyGet recs "filing_order") = true
  · have hp := wtKeyB_truthy recs "filing_order" wtTokensB
      (wtRecB_parts recs h).2.1 ht
    obtain ⟨xs, hxs, hall⟩ := wtTokensB_elim _ hp
    obtain ⟨r, hr⟩ := resolveAll_ok_of_strs ctx xs hall
    exact ⟨_, updateFilingOrder_char ctx recs xs r hxs (hxs ▸ ht) hr,
      wtRecB_set_fo recs _ h (wtTokensB_map_str _)⟩
  · exact ⟨recs, updateFilingOrder_skip ctx recs ht, h⟩

/-- The filing-order fallback succeeds on a well-typed payload and
preserves well-typedness. -/
theorem applyFilingFallback_ok (recs : Dict) (h : wtRecB recs = true) :
    ∃ r2, applyFilingFallback recs = .ok r2 ∧ wtRecB r2 = true := by
  unfold applyFilingFallback
  by_cases hc : (¬pyTruthy (pyGet recs "filing_order")
      && pyTruthy (pyGet recs "applicable_policies")) = true
  · rw [if_pos hc]
    have hc2 := hc
    rw [Bool.and_eq_true] at hc2
    have happ : pyTruthy (pyGet recs "applicable_policies") = true := hc2.2
    have hp := wtKeyB_truthy recs "applicable_policies" wtTokensB
      (wtRecB_parts recs h).1 happ
    obtain ⟨xs, hxs, hall⟩ := wtTokensB_elim _ hp
    rw [hxs]
    exact ⟨_, rfl, wtRecB_set_fo recs _ h (hxs ▸ hp)⟩
  · rw [if_neg hc]
    exact ⟨recs, rfl, h⟩

/-- The explanation rewrite succeeds on a well-typed payload and
preserves well-typedness. -/
theorem updateExplanation_ok (ctx : Ctx) (recs : Dict)
    (h : wtRecB recs = true) :
    ∃ r2, updateExplanation ctx recs = .ok r2 ∧ wtRecB r2 = true := by
  by_cases hc : (pyTruthy (pyGet recs "explanation")
      && pyTruthy (pyGet recs "applicable_policies")) = true
  · have hc2 := hc
    rw [Bool.and_eq_true] at hc2
    have hex : pyTruthy (pyGet recs "explanation") = true := hc2.1
    have happ : pyTruthy (pyGet recs "applicable_policies") = true := hc2.2
    have hp := wtKeyB_truthy recs "applicable_policies" wtTokensB
      (wtRecB_parts recs h).1 happ
    obtain ⟨xs, hxs, hall⟩ := wtTokensB_elim _ hp
    have hpe := wtKeyB_truthy recs "explanation" wtStr
      (wtRecB_parts recs h).2.2.2 hex
    obtain ⟨e, hfold, hqe⟩ := foldlM_ok_inv
      (fun (e : PyVal) (it : PyVal) =>
        (match it with
        | .list _ => .error PyErr.typeError
        | .dict _ => .error PyErr.typeError
        | .str pid =>
            (match assocGet? ctx.policy_map pid with
            | some info =>
                (match e with
                | .str s => .ok (.str (rewriteForPolicy info pid s))
                | _ => .error PyErr.attributeError)
            | Option.none => .ok e)
        | _ => .ok e : Except PyErr PyVal))
      (fun e => wtStr e = true) xs
      (fun a ha b hb => by
        obtain ⟨pid, rfl⟩ := wtStr_elim a (hall a ha)
        obtain ⟨s, rfl⟩ := wtStr_elim b hb
        cases hg : assocGet? ctx.policy_map pid with
        | none => exact ⟨.str s, by simp only [hg], rfl⟩
        | some info =>
            exact ⟨.str (rewriteForPolicy info pid s),
              by simp only [hg], rfl⟩)
      (pyGet recs "explanation") hpe
    refine ⟨assocSet recs "explanation" e, ?_, wtRecB_set_ex recs _ h hqe⟩
    unfold updateExplanation
    rw [if_pos hc, hxs]
    change ((xs.foldlM (fun (e : PyVal) (it : PyVal) =>
        (match it with
        | .list _ => .error PyErr.typeError
        | .dict _ => .error PyErr.typeError
        | .str pid =>
            (match assocGet? ctx.policy_map pid with
            | some info =>
                (match e with
                | .str s => .ok (.str (rewriteForPolicy info pid s))
                | _ => .error PyErr.attributeError)
            | Option.none => .ok e)
        | _ => .ok e : Except PyErr PyVal)) (pyGet recs "explanation")) >>= fun e3 =>
      pure (assocSet recs "explanation" e3))
      = Except.ok (assocSet recs "explanation" e)
    exact (bind_ok_rw hfold).trans rfl
  · refine ⟨recs, ?_, h⟩
    unfold updateExplanation
    rw [if_neg hc]
    rfl

/-- Publishing the `policy_numbers` map succeeds on a well-typed payload
and preserves well-typedness. -/
theorem updatePolicyNumbersKey_ok (ctx : Ctx) (recs : Dict)
    (h : wtRecB recs = true) :
    ∃ r2, updatePolicyNumbersKey ctx recs = .ok r2 ∧ wtRecB r2 = true := by
  have hv : ∃ xs, assocGetD (assocSet recs "policy_numbers" (.dict []))
      "applicable_policies" (.list []) = .list xs
      ∧ ∀ t ∈ xs, wtStr t = true := by
    have h1 := (wtRecB_parts recs h).1
    unfold wtKeyB at h1
    unfold assocGetD
    rw [assocGet?_assocSet_ne _ _ _ _ (by decide)]
    cases hg : assocGet? recs "applicable_policies" with
    | none => exact ⟨[], rfl, fun t htm => by cases htm⟩
    | some w =>
        rw [hg] at h1
        obtain ⟨xs, rfl, hall⟩ := wtTokensB_elim w h1
        exact ⟨xs, rfl, hall⟩
  obtain ⟨xs, hxs, hall⟩ := hv
  obtain ⟨pn, hfold, -⟩ := foldlM_ok_inv
    (fun (acc : Dict) (it : PyVal) =>
      (match it with
      | .list _ => .error PyErr.typeError
      | .dict _ => .error PyErr.typeError
      | .str pid =>
          (match assocGet? ctx.policy_id_to_number pid with
          | some n => .ok (assocSet acc pid (.str n))
          | Option.none => .ok acc)
      | _ => .ok acc : Except PyErr Dict))
    (fun _ => True) xs
    (fun a ha b hb => by
      obtain ⟨pid, rfl⟩ := wtStr_elim a (hall a ha)
      cases hg : assocGet? ctx.policy_id_to_number pid with
      | none => exact ⟨b, by simp only [hg], trivial⟩
      | some n => exact ⟨assocSet b pid (.str n), by simp only [hg], trivial⟩)
    [] trivial
  refine ⟨assocSet (assocSet recs "policy_numbers" (.dict []))
    "policy_numbers" (.dict pn), ?_, ?_⟩
  · unfold updatePolicyNumbersKey
    dsimp only
    rw [hxs]
    change ((xs.foldlM (fun (acc : Dict) (it : PyVal) =>
        (match it with
        | .list _ => .error PyErr.typeError
        | .dict _ => .error PyErr.typeError
        | .str pid =>
            (match assocGet? ctx.policy_id_to_number pid with
            | some n => .ok (assocSet acc pid (.str n))
            | Option.none => .ok acc)
        | _ => .ok acc : Except PyErr Dict)) ([] : Dict)) >>= fun pn2 =>
      pure (assocSet (assocSet recs "policy_numbers" (.dict []))
        "policy_numbers" (.dict pn2)))
      = Except.ok (assocSet (assocSet recs "policy_numbers" (.dict []))
          "policy_numbers" (.dict pn))
    exact (bind_ok_rw hfold).trans rfl
  · refine wtRecB_set_other _ "policy_numbers" _ ?_
      (by decide) (by decide) (by decide) (by decide)
    exact wtRecB_set_other recs "policy_numbers" _ h
      (by decide) (by decide) (by decide) (by decide)

/-- The display formatting of a token-list key succeeds on a well-typed
payload and preserves well-typedness. -/
theorem formatIdList_ok (ctx : Ctx) (key : String) (recs : Dict)
    (hkey : key = "applicable_policies" ∨ key = "filing_order")
    (h : wtRecB recs = true) :
    ∃ r2, formatIdList ctx key recs = .ok r2 ∧ wtRecB r2 = true := by
  by_cases ht : pyTruthy (pyGet recs key) = true
  · have hk : wtKeyB recs key wtTokensB = true := by
      rcases hkey with rfl | rfl
      · exact (wtRecB_parts recs h).1
      · exact (wtRecB_parts recs h).2.1
    have hp := wtKeyB_truthy recs key wtTokensB hk ht
    obtain ⟨xs, hxs, hall⟩ := wtTokensB_elim _ hp
    obtain ⟨new, hfold, hq⟩ := foldlM_ok_inv (formatIdStep ctx)
      (fun acc => ∀ x ∈ acc, wtStr x = true) xs
      (fun a ha b hb => by
        obtain ⟨pid, rfl⟩ := wtStr_elim a (hall a ha)
        simp only [formatIdStep]
        cases hg : assocGet? ctx.policy_map pid with
        | none => exact ⟨b, rfl, hb⟩
        | some info =>
            refine ⟨b ++ [.str (displayStr ctx pid info)], rfl, ?_⟩
            intro x hx
            rcases List.mem_append.mp hx with hx2 | hx2
            · exact hb x hx2
            · rw [List.mem_singleton.mp hx2]
              rfl)
      [] (fun x hx => by cases hx)
    refine ⟨assocSet recs key (.list new), ?_, ?_⟩
    · unfold formatIdList
      dsimp only
      rw [hxs, if_pos (hxs ▸ ht)]
      change ((xs.foldlM (formatIdStep ctx) ([] : List PyVal)) >>= fun n2 =>
          pure (assocSet recs key (.list n2)))
        = Except.ok (assocSet recs key (.list new))
      exact (bind_ok_rw hfold).trans rfl
    · have hv : wtTokensB (.list new) = true := by
        simp only [wtTokensB]
        rw [List.all_eq_true]
        exact hq
      rcases hkey with rfl | rfl
      · exact wtRecB_set_ap recs _ h hv
      · exact wtRecB_set_fo recs _ h hv
  · exact ⟨recs, formatIdList_skip ctx key recs ht, h⟩

/-- The display formatting of the coverage details succeeds on a
well-typed payload and preserves well-typedness. -/
theorem formatCoverageDetails_ok (ctx : Ctx) (recs : Dict)
    (h : wtRecB recs = true) :
    ∃ r2, formatCoverageDetails ctx recs = .ok r2 ∧ wtRecB r2 = true := by
  by_cases ht : pyTruthy (pyGet recs "coverage_details") = true
  · have hp := wtKeyB_truthy recs "coverage_details" wtDetailsB
      (wtRecB_parts recs h).2.2.1 ht
    obtain ⟨ds, hds, hall⟩ := wtDetailsB_elim _ hp
    obtain ⟨new, hfold, hq⟩ := foldlM_ok_inv (formatCovStep ctx)
      (fun acc => ∀ x ∈ acc, wtDetailB x = true) ds
      (fun a ha b hb => by
        obtain ⟨kvs, s, rfl, hsid⟩ := wtDetailB_elim a (hall a ha)
        simp only [formatCovStep, hsid]
        cases hg : assocGet? ctx.policy_map s with
        | some info =>
            refine ⟨b ++ [.dict (assocSet kvs "policy_id"
              (.str (displayStr ctx s info)))], rfl, ?_⟩
            intro x hx
            rcases List.mem_append.mp hx with hx2 | hx2
            · exact hb x hx2
            · rw [List.mem_singleton.mp hx2]
              exact wtDetailB_setPid kvs _
        | none =>
            refine ⟨b ++ [.dict kvs], rfl, ?_⟩
            intro x hx
            rcases List.mem_append.mp hx with hx2 | hx2
            · exact hb x hx2
            · rw [List.mem_singleton.mp hx2]
              exact hall _ ha)
      [] (fun x hx => by cases hx)
    refine ⟨assocSet recs "coverage_details" (.list new), ?_, ?_⟩
    · unfold formatCoverageDetails
      dsimp only
      rw [hds, if_pos (hds ▸ ht)]
      change ((ds.foldlM (formatCovStep ctx) ([] : List PyVal)) >>= fun n2 =>
          pure (assocSet recs "coverage_details" (.list n2)))
        = Except.ok (assocSet recs "coverage_details" (.list new))
      exact (bind_ok_rw hfold).trans rfl
    · refine wtRecB_set_cd recs _ h ?_
      simp only [wtDetailsB]
      rw [List.all_eq_true]
      exact hq
  · exact ⟨recs, formatCoverageDetails_skip ctx recs ht, h⟩

/-- The reconciliation core succeeds on any well-typed payload against
well-formed policies. -/
theorem analyzeCore_ok (f : List String → List String) (ps : List Policy)
    (recs : Dict) (hwf : ps.all wfPolicyB = true)
    (hrec : wtRecB recs = true) :
    ∃ out, analyzeCore f ps recs = .ok out := by
  obtain ⟨pns, hpns⟩ := extractPolicyNumbers_ok (buildCtx ps) recs hrec
  obtain ⟨r1, h1, hw1⟩ := updateApplicable_ok f (buildCtx ps) recs hrec
  have hw2 := applyExplanationFallback_wt pns r1 hw1
  obtain ⟨r3, h3, hw3⟩ := updateCoverageDetails_ok ps
    (applyExplanationFallback pns r1) hwf hw2
  obtain ⟨r4, h4, hw4⟩ := synthesizeDetails_ok ps r3 hwf hw3
  obtain ⟨r5, h5, hw5⟩ := updateFilingOrder_ok (buildCtx ps) r4 hw4
  obtain ⟨r6, h6, hw6⟩ := applyFilingFallback_ok r5 hw5
  have hw7 := applyLimitationsDefault_wt r6 hw6
  obtain ⟨r8, h8, hw8⟩ := updateExplanation_ok (buildCtx ps)
    (applyLimitationsDefault r6) hw7
  obtain ⟨r9, h9, hw9⟩ := updatePolicyNumbersKey_ok (buildCtx ps) r8 hw8
  obtain ⟨r10, h10, hw10⟩ := formatIdList_ok (buildCtx ps)
    "applicable_policies" r9 (Or.inl rfl) hw9
  obtain ⟨r11, h11, hw11⟩ := formatCoverageDetails_ok (buildCtx ps) r10 hw10
  obtain ⟨r12, h12, -⟩ := formatIdList_ok (buildCtx ps)
    "filing_order" r11 (Or.inr rfl) hw11
  refine ⟨r12, ?_⟩
  unfold analyzeCore
  dsimp only
  simp only [bind_ok_rw hpns, bind_ok_rw h1, bind_ok_rw h3, bind_ok_rw h4,
    bind_ok_rw h5, bind_ok_rw h6, bind_ok_rw h8, bind_ok_rw h9,
    bind_ok_rw h10, bind_ok_rw h11, bind_ok_rw h12]
  rfl

/-- C6 counterexample.  The spec claims reconciliation never raises,
even on wrong-typed fields.  A payload whose `applicable_policies` is
the integer `5` is truthy, and iterating it at line 281 raises
`TypeError`, so the call fails although the policy list is non-empty. -/
theorem c6_counterexample :
    analyze_optimal_claim_path dedupKeepFirst [exP1]
      [("applicable_policies", PyVal.int 5)] = .error .typeError
    ∧ ([exP1] : List Policy) ≠ [] :=
  ⟨rfl, by simp⟩

/-- C6 (amended).  Reconciliation raises on wrong-typed fields (see the
counterexample), but it is total on well-typed payloads: for every
policy list whose coverage limits all parse and every raw
recommendation whose present `applicable_policies`/`filing_order` are
lists of strings, whose present `coverage_details` is a list of dicts
with string (or absent) `policy_id`, and whose present `explanation` is
a string — fields may also be absent, falsy, or extra — the call
returns without raising. -/
theorem c6_amended (f : List String → List String) (ps : List Policy)
    (recs : Dict) (hwf : ps.all wfPolicyB = true)
    (hrec : wtRecB recs = true) :
    ∃ res, analyze_optimal_claim_path f ps recs = .ok res := by
  by_cases hps : ps.isEmpty = true
  · refine ⟨.failure "No policies found. Please upload your insurance policies first.", ?_⟩
    unfold analyze_optimal_claim_path
    rw [if_pos hps]
  · obtain ⟨out, hout⟩ := analyzeCore_ok f ps recs hwf hrec
    refine ⟨.success out, ?_⟩
    unfold analyze_optimal_claim_path
    rw [if_neg hps, hout]
    rfl

/-- An oracle payload with every documented field present and typed as
documented. -/
def exRecC6 : Dict :=
  [("applicable_policies", PyVal.list [.str "pid1", .str "ghost"]),
   ("filing_order", PyVal.list [.str "123456"]),
   ("coverage_details", PyVal.list [PyVal.dict [("policy_id", .str "123456")]]),
   ("explanation", PyVal.str "Your health insurance policy covers it.")]

/-- C6 witness: the amended totality theorem applied to a concrete
well-typed payload and well-formed policy list. -/
theorem c6_amended_witness :
    ([exP1] : List Policy).all wfPolicyB = true
    ∧ wtRecB exRecC6 = true
    ∧ ∃ res, analyze_optimal_claim_path dedupKeepFirst [exP1] exRecC6
        = .ok res :=
  ⟨rfl, rfl, c6_amended dedupKeepFirst [exP1] exRecC6 rfl rfl⟩

end ClaimService
